import Mathlib

/-!
The `mount_root` program of fstools: the start, stop and done phases.

A shallow embedding of `src/mount_root.c`.

* C strings are lists of characters (`CStr`); the NUL terminator is implicit,
  so the text of `/proc/cmdline` is a list of non-NUL characters.
* The `FILE *` of the command-line scan is the unread remainder of the file
  together with its end-of-file indicator.
* The kernel keeps the command line shorter than `COMMAND_LINE_SIZE`, so the word
  stored by `%s` fits `buffer`; the buffer is a string without a capacity.
* Every call that leaves the function (`getenv`, `stat`, `fopen`, `volume_find`,
  `mount`, ...) is recorded, in program order, in a trace of `Event`s; the
  values those calls return are fields of `World`.
* `start`, `done` and `main` return `Option (Int × List Event)`: the exit status
  and the trace, or `none` when the scan loop has not left within its fuel.
-/

namespace MountRoot

/-! ## C strings and the libc functions used by the scan -/

/-- A C string, without its terminating NUL. -/
abbrev CStr := List Char

/-- The `isspace` of the C locale: space, `\t`, `\n`, `\v`, `\f`, `\r`. -/
def isspace (c : Char) : Bool :=
  c = ' ' || c = '\t' || c = '\n' || c = '\x0b' || c = '\x0c' || c = '\r'

/-- The value `EOF` of `<stdio.h>`. -/
def EOF : Int := -1

/-- A stream opened for reading: what is still unread and the end-of-file indicator. -/
structure FILE where
  unread : CStr
  eof : Bool
deriving DecidableEq, Repr

/-- The call `feof(fp)`. -/
def feof (fp : FILE) : Bool := fp.eof

/-- The call `fseek(fp, n, SEEK_CUR)` for `n ≥ 0`: moves forward and clears the end-of-file indicator. -/
def fseek_cur (fp : FILE) (n : Nat) : FILE := ⟨fp.unread.drop n, false⟩

/-- Outcome of matching the ordinary characters of a `scanf` format. -/
inductive LiteralMatch where
  /-- the input ended before the literal text did -/
  | input_failure
  /-- a character differed; it is pushed back and heads `rest` -/
  | matching_failure (rest : CStr)
  /-- all of the literal text was read; `rest` follows it -/
  | matched (rest : CStr)
deriving DecidableEq, Repr

/-- Ordinary characters of a format are compared one by one with the input, with no
white-space skipping; matched characters are consumed, the first differing character
is left unread. -/
def match_literal : CStr → CStr → LiteralMatch
  | [], inp => .matched inp
  | _ :: _, [] => .input_failure
  | f :: fs, c :: cs => if c = f then match_literal fs cs else .matching_failure (c :: cs)

/-- The ordinary characters of the format `"overlay=%s"`. -/
def overlay_literal : CStr := "overlay=".toList

/-- The call `fscanf(fp, "overlay=%s", buffer)`: the return value, the stream afterwards and the
buffer afterwards.  The literal text is matched first; `%s` then skips white space and
stores the following run of non-white-space characters.  The result is `EOF` when the
input ends before the conversion has stored anything, `0` on a mismatch in the literal
text, `1` when a word was stored. -/
def fscanf_overlay (fp : FILE) (buffer : CStr) : Int × FILE × CStr :=
  match match_literal overlay_literal fp.unread with
  | .input_failure => (EOF, ⟨[], true⟩, buffer)
  | .matching_failure rest => (0, ⟨rest, fp.eof⟩, buffer)
  | .matched rest =>
    match rest.dropWhile isspace with
    | [] => (EOF, ⟨[], true⟩, buffer)
    | c :: cs =>
      (1, ⟨(c :: cs).dropWhile (fun x => !isspace x),
            ((c :: cs).dropWhile (fun x => !isspace x)).isEmpty⟩,
        (c :: cs).takeWhile (fun x => !isspace x))

/-- The loop of lines 54-59 (and, verbatim, 185-190):
`while (!feof(fp)) { if (fscanf(fp, "overlay=%s", buffer)) break; fseek(fp, 1, SEEK_CUR); }`.
One unit of fuel is one evaluation of the loop condition. -/
def scan_loop : Nat → FILE → CStr → Option (FILE × CStr)
  | 0, _, _ => none
  | fuel + 1, fp, buffer =>
    if feof fp then some (fp, buffer)
    else
      let r := fscanf_overlay fp buffer
      if r.1 ≠ 0 then some (r.2.1, r.2.2)
      else scan_loop fuel (fseek_cur r.2.1 1) r.2.2

/-- The buffer after the scan of a freshly opened file with content `text`:
`char buffer[COMMAND_LINE_SIZE] = {0}` is the empty string, and the loop is given
`text.length + 1` evaluations of its condition. -/
def cmdline_scan (text : CStr) : Option CStr :=
  (scan_loop (text.length + 1) ⟨text, false⟩ []).map Prod.snd

/-- The test `strstr(haystack, needle) != NULL`. -/
def strstr : CStr → CStr → Bool
  | [], needle => needle.isEmpty
  | h :: t, needle => needle.isPrefixOf (h :: t) || strstr t needle

/-- Lines 69-74: `buffer + offset`, where `offset` is 5 when `strstr(buffer, "/dev/")`
is not NULL and 0 otherwise. -/
def overlay_name (buffer : CStr) : CStr :=
  buffer.drop (if strstr buffer "/dev/".toList then 5 else 0)

/-! ## The collaborators of `libfstools` and the kernel -/

/-- A `struct volume *` that is not NULL: a handle owned by `libfstools`. -/
abbrev Volume := Nat

/-- Modelled from the spec: the `FS_*` enumeration of `libfstools/libfstools.h`, which is
not part of the sources at hand.  The spec (section 3) gives the closed list `NONE`,
`DEADCODE`, `JFFS2`, `UBIFS`, `EXT4`, `SNAPSHOT`; the constructors carry the names under
which `mount_root.c` uses them. -/
inductive FsType where
  | FS_NONE
  | FS_DEADCODE
  | FS_JFFS2
  | FS_UBIFS
  | FS_EXT4FS
  | FS_SNAPSHOT
deriving DecidableEq, Repr

/-- Modelled from the spec: the readiness state of `libfstools/libfstools.h`, of which
`mount_root.c` uses `FS_STATE_READY` only (spec 4.5: "mark the overlay's readiness flag
as ready"). -/
inductive FsState where
  | FS_STATE_READY
deriving DecidableEq, Repr

/-- The flag `MS_REMOUNT` of `<sys/mount.h>`. -/
def MS_REMOUNT : Nat := 32

/-- The flag `MS_NOATIME` of `<sys/mount.h>`. -/
def MS_NOATIME : Nat := 1024

/-- What one invocation finds around it: the environment, the file system, the volume
table and classifier of `libfstools`, and the status each external procedure returns. -/
structure World where
  /-- result of `getenv(name)`; `none` is NULL -/
  getenv : CStr → Option CStr
  /-- whether `stat(path, &s)` succeeds -/
  file_exists : CStr → Bool
  /-- content of `/proc/cmdline`; `none` when `fopen` fails -/
  proc_cmdline : Option CStr
  /-- result of `volume_find(name)`; `none` is NULL -/
  volume_find : CStr → Option Volume
  /-- result of `volume_identify(v)` -/
  volume_identify : Volume → FsType
  /-- status of `ramoverlay()` -/
  ramoverlay : Int
  /-- status of `mount_overlay(v)` -/
  mount_overlay : Volume → Int
  /-- status of `mount_snapshot(v)` -/
  mount_snapshot : Volume → Int
  /-- status of `mount_extroot()` -/
  mount_extroot : Int
  /-- status of `jffs2_switch(v)` -/
  jffs2_switch : Volume → Int

/-- The call `stat(path, &s)`: 0 on success, -1 on failure. -/
def stat (w : World) (path : CStr) : Int := if w.file_exists path then 0 else -1

/-- One call that leaves `mount_root.c`, with its arguments. -/
inductive Event where
  | getenv (name : CStr)
  | stat (path : CStr)
  | fopen (path : CStr) (mode : CStr)
  | fclose
  | ULOG_WARN (msg : String)
  | ULOG_NOTE (msg : String)
  | volume_find (name : CStr)
  | volume_init (v : Option Volume)
  | mount (source : CStr) (target : CStr) (fstype : Option CStr) (flags : Nat)
  | extroot_prefix_assign (value : CStr)
  | mount_extroot
  | volume_identify (v : Volume)
  | ramoverlay
  | mount_overlay (v : Volume)
  | mount_snapshot (v : Volume)
  | jffs2_switch (v : Volume)
  | fs_state_set (dir : CStr) (state : FsState)
deriving DecidableEq, Repr

/-! ## `start` -/

/-- Line 38: the value of `!getenv("PREINIT") && stat("/tmp/.preinit", &s)` and the calls
made to evaluate it (`&&` does not evaluate `stat` when `PREINIT` is set). -/
def start_guard (w : World) : Bool × List Event :=
  match w.getenv "PREINIT".toList with
  | some _ => (false, [.getenv "PREINIT".toList])
  | none =>
    (stat w "/tmp/.preinit".toList != 0,
      [.getenv "PREINIT".toList, .stat "/tmp/.preinit".toList])

/-- Lines 45-76 of `start`: the `do { ... } while(0)` block; the value of `data` after it
and the calls made. -/
def start_hint (w : World) : Option (Option Volume × List Event) :=
  match w.proc_cmdline with
  | none =>
    some (none, [.fopen "/proc/cmdline".toList "r".toList,
                 .ULOG_WARN "Failed to open /proc/cmdline for reading\n"])
  | some text =>
    match cmdline_scan text with
    | none => none
    | some [] => some (none, [.fopen "/proc/cmdline".toList "r".toList, .fclose])
    | some (b :: bs) =>
      some (w.volume_find (overlay_name (b :: bs)),
        [.fopen "/proc/cmdline".toList "r".toList, .fclose,
         .ULOG_NOTE "Looking for overlay device given on commandline\n",
         .volume_find (overlay_name (b :: bs))])

/-- Lines 45-82 of `start`: the hint block followed by
`if(!data) data = volume_find("rootfs_data");`. -/
def start_resolve (w : World) : Option (Option Volume × List Event) :=
  match start_hint w with
  | none => none
  | some (some data, tr) => some (some data, tr)
  | some (none, tr) =>
    some (w.volume_find "rootfs_data".toList, tr ++ [.volume_find "rootfs_data".toList])

/-- Lines 92-121 of `start`: the branch taken when `data` is NULL. -/
def start_no_data (w : World) : Int × List Event :=
  let t : List Event :=
    [.volume_find "rootfs".toList, .volume_init (w.volume_find "rootfs".toList),
     .ULOG_NOTE "mounting /dev/root\n",
     .mount "/dev/root".toList "/".toList none (MS_NOATIME ||| MS_REMOUNT),
     .extroot_prefix_assign [], .mount_extroot]
  if w.mount_extroot = 0 then (0, t ++ [.ULOG_NOTE "switched to extroot\n"])
  else (0, t)

/-- Lines 127-152 of `start`: the `switch (volume_identify(data))`. -/
def start_switch (w : World) (data : Volume) : Int × List Event :=
  match w.volume_identify data with
  | .FS_NONE =>
    (w.ramoverlay,
      [.volume_identify data,
       .ULOG_WARN "no usable overlay filesystem found, using tmpfs overlay\n", .ramoverlay])
  | .FS_DEADCODE =>
    (w.ramoverlay,
      [.volume_identify data,
       .ULOG_NOTE "jffs2 not ready yet, using temporary tmpfs overlay\n", .ramoverlay])
  | .FS_JFFS2 => (0, [.volume_identify data, .mount_overlay data])
  | .FS_UBIFS => (0, [.volume_identify data, .mount_overlay data])
  | .FS_EXT4FS => (0, [.volume_identify data, .mount_overlay data])
  | .FS_SNAPSHOT => (0, [.volume_identify data, .mount_snapshot data])

/-- The function `start(argc, argv)`; its arguments are not used by the body.  The result is the
returned status and the calls made, in order. -/
def start (w : World) : Option (Int × List Event) :=
  if (start_guard w).1 then some (-1, (start_guard w).2)
  else
    match start_resolve w with
    | none => none
    | some (none, tr) =>
      some ((start_no_data w).1, (start_guard w).2 ++ tr ++ (start_no_data w).2)
    | some (some data, tr) =>
      some ((start_switch w data).1, (start_guard w).2 ++ tr ++ (start_switch w data).2)

/-! ## `stop` -/

/-- The function `stop(argc, argv)`, lines 155-162. -/
def stop (w : World) : Option (Int × List Event) :=
  match w.getenv "SHUTDOWN".toList with
  | none => some (-1, [.getenv "SHUTDOWN".toList])
  | some _ => some (0, [.getenv "SHUTDOWN".toList])

/-! ## `done` -/

/-- Lines 176-207 of `done`: the `do { ... } while(0)` block; the value of `v` after it
and the calls made. -/
def done_hint (w : World) : Option (Option Volume × List Event) :=
  match w.proc_cmdline with
  | none =>
    some (none, [.fopen "/proc/cmdline".toList "r".toList,
                 .ULOG_WARN "Failed to open /proc/cmdline for reading\n"])
  | some text =>
    match cmdline_scan text with
    | none => none
    | some [] => some (none, [.fopen "/proc/cmdline".toList "r".toList, .fclose])
    | some (b :: bs) =>
      some (w.volume_find (overlay_name (b :: bs)),
        [.fopen "/proc/cmdline".toList "r".toList, .fclose,
         .ULOG_NOTE "Looking for overlay device given on commandline\n",
         .volume_find (overlay_name (b :: bs))])

/-- Lines 176-213 of `done`: the hint block followed by
`if (!v) v = volume_find("rootfs_data");`. -/
def done_resolve (w : World) : Option (Option Volume × List Event) :=
  match done_hint w with
  | none => none
  | some (some v, tr) => some (some v, tr)
  | some (none, tr) =>
    some (w.volume_find "rootfs_data".toList, tr ++ [.volume_find "rootfs_data".toList])

/-- Lines 221-233 of `done`: the `switch (volume_identify(v))` and the `return 0` after it. -/
def done_switch (w : World) (v : Volume) : Int × List Event :=
  match w.volume_identify v with
  | .FS_NONE => (w.jffs2_switch v, [.volume_identify v, .jffs2_switch v])
  | .FS_DEADCODE => (w.jffs2_switch v, [.volume_identify v, .jffs2_switch v])
  | .FS_JFFS2 =>
    (0, [.volume_identify v, .fs_state_set "/overlay".toList .FS_STATE_READY])
  | .FS_UBIFS =>
    (0, [.volume_identify v, .fs_state_set "/overlay".toList .FS_STATE_READY])
  | .FS_EXT4FS =>
    (0, [.volume_identify v, .fs_state_set "/overlay".toList .FS_STATE_READY])
  | .FS_SNAPSHOT => (0, [.volume_identify v])

/-- The function `done(argc, argv)`; its arguments are not used by the body. -/
def done (w : World) : Option (Int × List Event) :=
  match done_resolve w with
  | none => none
  | some (none, tr) => some (-1, tr)
  | some (some v, tr) => some ((done_switch w v).1, tr ++ (done_switch w v).2)

/-! ## `main` -/

/-- The function `main(argc, argv)`: `argv` is the whole argument vector, `argv[0]` included, and
`argc` its length. -/
def main (w : World) (argv : List CStr) : Option (Int × List Event) :=
  match argv with
  | [] => start w
  | [_] => start w
  | _ :: arg :: _ =>
    if arg = "ram".toList then some (w.ramoverlay, [.ramoverlay])
    else if arg = "stop".toList then stop w
    else if arg = "done".toList then done w
    else some (-1, [])

/-! ## Reading a trace -/

/-- The three mount strategies of `start`. -/
def Event.isStrategy : Event → Bool
  | .ramoverlay => true
  | .mount_overlay _ => true
  | .mount_snapshot _ => true
  | _ => false

/-- A `volume_find` call. -/
def Event.isFind : Event → Bool
  | .volume_find _ => true
  | _ => false

/-- A `volume_identify` call. -/
def Event.isIdentify : Event → Bool
  | .volume_identify _ => true
  | _ => false

/-- A `mount` system call. -/
def Event.isMount : Event → Bool
  | .mount _ _ _ _ => true
  | _ => false

/-- A `mount_extroot` call. -/
def Event.isExtroot : Event → Bool
  | .mount_extroot => true
  | _ => false

/-- The one-time conversion `jffs2_switch`. -/
def Event.isConversion : Event → Bool
  | .jffs2_switch _ => true
  | _ => false

/-- A readiness-flag update `fs_state_set`. -/
def Event.isStateSet : Event → Bool
  | .fs_state_set _ _ => true
  | _ => false

/-- What the hint block and the fallback may do: open and close the command line, log,
and look volumes up. -/
def Event.isResolution : Event → Bool
  | .fopen _ _ => true
  | .fclose => true
  | .ULOG_WARN _ => true
  | .ULOG_NOTE _ => true
  | .volume_find _ => true
  | _ => false

/-- The status part of a result. -/
def exit_code (r : Option (Int × List Event)) : Option Int := r.map Prod.fst

/-- The trace part of a result. -/
def trace (r : Option (Int × List Event)) : Option (List Event) := r.map Prod.snd

/-! ## Concrete worlds used for evaluation -/

/-- A device in pre-init, with the given command line and a volume table holding
`mmcblk0p3` (handle 1) and `rootfs_data` (handle 2); handle 1 is `ext4`, every other
volume has no file system. -/
def sample_world (cmdline : String) : World where
  getenv := fun n => if n = "PREINIT".toList then some "1".toList else none
  file_exists := fun _ => false
  proc_cmdline := some cmdline.toList
  volume_find := fun n =>
    if n = "mmcblk0p3".toList then some 1
    else if n = "rootfs_data".toList then some 2
    else none
  volume_identify := fun v => if v = 1 then .FS_EXT4FS else .FS_NONE
  ramoverlay := 0
  mount_overlay := fun _ => 0
  mount_snapshot := fun _ => 0
  mount_extroot := 0
  jffs2_switch := fun _ => 0

/-- A device past pre-init whose marker file is still on disk: `PREINIT` is unset,
`/tmp/.preinit` exists, and the volume table is empty. -/
def marker_world : World where
  getenv := fun _ => none
  file_exists := fun p => p = "/tmp/.preinit".toList
  proc_cmdline := some "console=ttyS0 root=/dev/mtdblock2\n".toList
  volume_find := fun _ => none
  volume_identify := fun _ => .FS_NONE
  ramoverlay := 0
  mount_overlay := fun _ => 0
  mount_snapshot := fun _ => 0
  mount_extroot := -1
  jffs2_switch := fun _ => 0

/-- The world of `marker_world` with neither `PREINIT` nor the marker file. -/
def bare_world : World := { marker_world with file_exists := fun _ => false }

/-- A device in pre-init whose only volume is an unformatted `rootfs_data` (handle 2);
`ramoverlay()` and `jffs2_switch()` return the given statuses. -/
def blank_world (ram_status switch_status : Int) : World where
  getenv := fun n => if n = "PREINIT".toList then some "1".toList else none
  file_exists := fun _ => false
  proc_cmdline := some "console=ttyS0 root=/dev/mtdblock2\n".toList
  volume_find := fun n => if n = "rootfs_data".toList then some 2 else none
  volume_identify := fun _ => .FS_NONE
  ramoverlay := ram_status
  mount_overlay := fun _ => 0
  mount_snapshot := fun _ => 0
  mount_extroot := 0
  jffs2_switch := fun _ => switch_status

/-- The calls of the hint block when the scan stored a word: open, close, the log line
and the lookup of the hinted name. -/
def hinted_lookup (n : CStr) : List Event :=
  [.fopen "/proc/cmdline".toList "r".toList, .fclose,
   .ULOG_NOTE "Looking for overlay device given on commandline\n", .volume_find n]

/-- Any call that acts on a volume, a mount or persisted state: everything but
environment and file reads, logging, lookups and classification. -/
def Event.isAction : Event → Bool
  | .volume_init _ => true
  | .mount _ _ _ _ => true
  | .extroot_prefix_assign _ => true
  | .mount_extroot => true
  | .ramoverlay => true
  | .mount_overlay _ => true
  | .mount_snapshot _ => true
  | .jffs2_switch _ => true
  | .fs_state_set _ _ => true
  | _ => false

/-- The volume part of a resolution result. -/
def resolved (r : Option (Option Volume × List Event)) : Option (Option Volume) :=
  r.map Prod.fst

/-! ## The specification's reading of the components -/

/-- The hint parser of spec 4.2, as composed from the code: the name that lines 65-74
pass to `volume_find`, or `none` ("no hint") when `/proc/cmdline` cannot be opened or the
scan leaves the buffer empty. -/
def parse_hint (cmdline : Option CStr) : Option CStr :=
  match cmdline with
  | none => none
  | some text =>
    match cmdline_scan text with
    | some (b :: bs) => some (overlay_name (b :: bs))
    | _ => none

/-- The mount strategy spec 4.4 assigns to a condition: `NONE`, `DEADCODE` -> ram overlay;
`JFFS2`, `UBIFS`, `EXT4` -> overlay mount of the volume; `SNAPSHOT` -> snapshot mount. -/
def spec_strategy : FsType → Volume → Event
  | .FS_NONE, _ => .ramoverlay
  | .FS_DEADCODE, _ => .ramoverlay
  | .FS_JFFS2, v => .mount_overlay v
  | .FS_UBIFS, v => .mount_overlay v
  | .FS_EXT4FS, v => .mount_overlay v
  | .FS_SNAPSHOT, v => .mount_snapshot v

/-- The actions spec 4.5 assigns to a condition in `done`: `NONE`, `DEADCODE` -> the
one-time conversion; `JFFS2`, `UBIFS`, `EXT4` -> set the readiness flag; `SNAPSHOT` ->
nothing. -/
def spec_done_actions : FsType → Volume → List Event
  | .FS_NONE, v => [.jffs2_switch v]
  | .FS_DEADCODE, v => [.jffs2_switch v]
  | .FS_JFFS2, _ => [.fs_state_set "/overlay".toList .FS_STATE_READY]
  | .FS_UBIFS, _ => [.fs_state_set "/overlay".toList .FS_STATE_READY]
  | .FS_EXT4FS, _ => [.fs_state_set "/overlay".toList .FS_STATE_READY]
  | .FS_SNAPSHOT, _ => []

/-- The guard of `start` as the specification words it (spec 4.1): `PREINIT` is present,
or the marker file is absent. -/
def spec_start_guard (w : World) : Bool :=
  (w.getenv "PREINIT".toList).isSome || !w.file_exists "/tmp/.preinit".toList

/-- The white-space-delimited tokens of a text, left to right; `cur` holds the
characters of the token being read, last one first. -/
def tokens_from : CStr → CStr → List CStr
  | [], [] => []
  | [], c :: cur => [(c :: cur).reverse]
  | x :: xs, cur =>
    if isspace x then
      match cur with
      | [] => tokens_from xs []
      | c :: cur' => (c :: cur').reverse :: tokens_from xs []
    else tokens_from xs (x :: cur)

/-- The white-space-delimited tokens of a command line. -/
def tokens (text : CStr) : List CStr := tokens_from text []

/-- Whether some token has the form `overlay=<value>`, that is, begins with `overlay=`. -/
def has_overlay_token (text : CStr) : Bool :=
  (tokens text).any (fun t => overlay_literal.isPrefixOf t)

/-- Whether the text `overlay=` stands at position `k` of `text`. -/
def occurs_at (text : CStr) (k : Nat) : Bool := overlay_literal.isPrefixOf (text.drop k)

/-- Whether every occurrence of `overlay=` in `text` is immediately followed by white
space or by the end of the text. -/
def every_value_empty (text : CStr) : Bool :=
  (List.range text.length).all (fun k =>
    !occurs_at text k ||
      match (text.drop (k + overlay_literal.length)).head? with
      | none => true
      | some c => isspace c)

/-- A guard check: a read of the environment or a `stat` of the marker file. -/
def Event.isGuardCheck : Event → Bool
  | .getenv _ => true
  | .stat _ => true
  | _ => false

/-- A read of the command line. -/
def Event.isCmdlineRead : Event → Bool
  | .fopen _ _ => true
  | .fclose => true
  | _ => false

/-- The `volume_find` calls of a hint block, in order: the hinted lookups. -/
def hint_lookups (r : Option (Option Volume × List Event)) : Option (List Event) :=
  r.map (fun p => p.2.filter Event.isFind)

/-- A device at shutdown: `SHUTDOWN` is the only variable set; the volume table holds
`rootfs_data` (handle 2, `jffs2`), and `/proc/cmdline` hints at `mmcblk0p3`, which it
does not hold. -/
def shutdown_world : World where
  getenv := fun n => if n = "SHUTDOWN".toList then some "1".toList else none
  file_exists := fun _ => true
  proc_cmdline := some "console=ttyS0 overlay=mmcblk0p3 rw\n".toList
  volume_find := fun n => if n = "rootfs_data".toList then some 2 else none
  volume_identify := fun _ => .FS_JFFS2
  ramoverlay := -1
  mount_overlay := fun _ => 0
  mount_snapshot := fun _ => 0
  mount_extroot := 0
  jffs2_switch := fun _ => 0

/-- A device in pre-init whose volume table holds a volume named `overlay=sda1`
(handle 3, `ext4`) beside `rootfs_data` (handle 2, `jffs2`). -/
def named_world (cmdline : String) : World where
  getenv := fun n => if n = "PREINIT".toList then some "1".toList else none
  file_exists := fun _ => false
  proc_cmdline := some cmdline.toList
  volume_find := fun n =>
    if n = "overlay=sda1".toList then some 3
    else if n = "rootfs_data".toList then some 2
    else none
  volume_identify := fun v => if v = 3 then .FS_EXT4FS else .FS_JFFS2
  ramoverlay := 0
  mount_overlay := fun _ => 0
  mount_snapshot := fun _ => 0
  mount_extroot := 0
  jffs2_switch := fun _ => 0

/-! ## Termination of the scan -/

theorem match_literal_failure_length (l inp rest : CStr)
    (h : match_literal l inp = .matching_failure rest) :
    0 < rest.length ∧ rest.length ≤ inp.length := by
  induction l generalizing inp with
  | nil => simp [match_literal] at h
  | cons f fs ih =>
    cases inp with
    | nil => simp [match_literal] at h
    | cons c cs =>
      by_cases hc : c = f
      · simp only [match_literal, hc, if_true] at h
        have := ih cs h
        simp only [List.length_cons]
        omega
      · simp only [match_literal, hc, if_false] at h
        cases h
        simp

theorem fscanf_overlay_zero (fp : FILE) (buffer : CStr)
    (h : (fscanf_overlay fp buffer).1 = 0) :
    ∃ rest, match_literal overlay_literal fp.unread = .matching_failure rest ∧
      fscanf_overlay fp buffer = (0, ⟨rest, fp.eof⟩, buffer) := by
  unfold fscanf_overlay at h ⊢
  cases hm : match_literal overlay_literal fp.unread with
  | input_failure => simp [hm, EOF] at h
  | matching_failure rest => exact ⟨rest, rfl, by simp⟩
  | matched rest =>
    rw [hm] at h
    cases hd : rest.dropWhile isspace with
    | nil => simp [hd, EOF] at h
    | cons c cs => simp [hd] at h

theorem scan_loop_isSome (fuel : Nat) (fp : FILE) (buffer : CStr)
    (h : fp.unread.length < fuel) : (scan_loop fuel fp buffer).isSome = true := by
  induction fuel generalizing fp buffer with
  | zero => omega
  | succ n ih =>
    unfold scan_loop
    by_cases he : feof fp = true
    · simp [he]
    · simp only [he, if_false]
      by_cases hr : (fscanf_overlay fp buffer).1 = 0
      · obtain ⟨rest, hm, hf⟩ := fscanf_overlay_zero fp buffer hr
        have hl := match_literal_failure_length _ _ _ hm
        simp only [hf, ne_eq, not_true_eq_false, if_false]
        apply ih
        simp only [fseek_cur, List.length_drop]
        omega
      · simp [hr]

theorem cmdline_scan_isSome (text : CStr) : (cmdline_scan text).isSome = true := by
  unfold cmdline_scan
  have := scan_loop_isSome (text.length + 1) ⟨text, false⟩ [] (by simp)
  simpa using this

theorem cmdline_scan_terminates (text : CStr) : ∃ buffer, cmdline_scan text = some buffer :=
  Option.isSome_iff_exists.mp (cmdline_scan_isSome text)

/-! ## The hint block and the resolver -/

theorem done_hint_eq_start_hint (w : World) : done_hint w = start_hint w := rfl

theorem done_resolve_eq_start_resolve (w : World) : done_resolve w = start_resolve w := rfl

theorem start_hint_of_hint (w : World) (n : CStr) (h : parse_hint w.proc_cmdline = some n) :
    start_hint w = some (w.volume_find n,
      [.fopen "/proc/cmdline".toList "r".toList, .fclose,
       .ULOG_NOTE "Looking for overlay device given on commandline\n", .volume_find n]) := by
  unfold parse_hint at h
  unfold start_hint
  cases hc : w.proc_cmdline with
  | none => simp [hc] at h
  | some text =>
    rw [hc] at h
    cases hs : cmdline_scan text with
    | none => simp [hs] at h
    | some buffer =>
      cases buffer with
      | nil => simp [hs] at h
      | cons b bs =>
        simp only [hs, Option.some.injEq] at h
        subst h
        simp only [hs]

theorem start_hint_of_no_hint (w : World) (h : parse_hint w.proc_cmdline = none) :
    ∃ tr, start_hint w = some (none, tr) ∧ tr.filter Event.isFind = [] ∧
      ∀ e ∈ tr, e.isResolution = true := by
  unfold parse_hint at h
  unfold start_hint
  cases hc : w.proc_cmdline with
  | none =>
    exact ⟨[.fopen "/proc/cmdline".toList "r".toList,
      .ULOG_WARN "Failed to open /proc/cmdline for reading\n"], rfl, by decide, by decide⟩
  | some text =>
    rw [hc] at h
    obtain ⟨buffer, hs⟩ := cmdline_scan_terminates text
    cases buffer with
    | nil =>
      exact ⟨[.fopen "/proc/cmdline".toList "r".toList, .fclose], by simp only [hs],
        by decide, by decide⟩
    | cons b bs => simp [hs] at h

theorem start_resolve_of_found (w : World) (n : CStr) (v : Volume)
    (h : parse_hint w.proc_cmdline = some n) (hv : w.volume_find n = some v) :
    start_resolve w = some (some v,
      [.fopen "/proc/cmdline".toList "r".toList, .fclose,
       .ULOG_NOTE "Looking for overlay device given on commandline\n", .volume_find n]) := by
  unfold start_resolve
  rw [start_hint_of_hint w n h, hv]

theorem start_resolve_of_not_found (w : World) (n : CStr)
    (h : parse_hint w.proc_cmdline = some n) (hv : w.volume_find n = none) :
    start_resolve w = some (w.volume_find "rootfs_data".toList,
      [.fopen "/proc/cmdline".toList "r".toList, .fclose,
       .ULOG_NOTE "Looking for overlay device given on commandline\n", .volume_find n,
       .volume_find "rootfs_data".toList]) := by
  unfold start_resolve
  rw [start_hint_of_hint w n h, hv]
  rfl

theorem start_resolve_of_no_hint (w : World) (h : parse_hint w.proc_cmdline = none) :
    ∃ tr, start_resolve w = some (w.volume_find "rootfs_data".toList, tr) ∧
      tr.filter Event.isFind = [.volume_find "rootfs_data".toList] ∧
      ∀ e ∈ tr, e.isResolution = true := by
  obtain ⟨tr, ht, hf, hr⟩ := start_hint_of_no_hint w h
  refine ⟨tr ++ [.volume_find "rootfs_data".toList], ?_, ?_, ?_⟩
  · unfold start_resolve
    rw [ht]
  · rw [List.filter_append, hf]
    rfl
  · intro e he
    rcases List.mem_append.mp he with he | he
    · exact hr e he
    · simp only [List.mem_singleton] at he
      subst he
      rfl

/-- The resolver always returns, and its calls are file reads, log lines and lookups. -/
theorem start_resolve_total (w : World) :
    ∃ d tr, start_resolve w = some (d, tr) ∧ ∀ e ∈ tr, e.isResolution = true := by
  cases hh : parse_hint w.proc_cmdline with
  | none =>
    obtain ⟨tr, ht, _, hr⟩ := start_resolve_of_no_hint w hh
    exact ⟨_, tr, ht, hr⟩
  | some n =>
    cases hv : w.volume_find n with
    | none =>
      refine ⟨_, _, start_resolve_of_not_found w n hh hv, ?_⟩
      intro e he
      simp only [List.mem_cons, List.mem_singleton, List.not_mem_nil, or_false] at he
      rcases he with he | he | he | he | he <;> subst he <;> rfl
    | some v =>
      refine ⟨_, _, start_resolve_of_found w n v hh hv, ?_⟩
      intro e he
      simp only [List.mem_cons, List.mem_singleton, List.not_mem_nil, or_false] at he
      rcases he with he | he | he | he <;> subst he <;> rfl

theorem start_resolve_trace (w : World) (d : Option Volume) (tr : List Event)
    (h : start_resolve w = some (d, tr)) : ∀ e ∈ tr, e.isResolution = true := by
  obtain ⟨d', tr', h', hr⟩ := start_resolve_total w
  rw [h] at h'
  simp only [Option.some.injEq, Prod.mk.injEq] at h'
  rw [h'.2]
  exact hr

theorem filter_resolution_nil (p : Event → Bool)
    (hp : ∀ e, e.isResolution = true → p e = false) (tr : List Event)
    (h : ∀ e ∈ tr, e.isResolution = true) : tr.filter p = [] := by
  rw [List.filter_eq_nil_iff]
  intro e he
  simp [hp e (h e he)]

theorem start_guard_trace_filter (w : World) (p : Event → Bool)
    (h1 : p (.getenv "PREINIT".toList) = false) (h2 : p (.stat "/tmp/.preinit".toList) = false) :
    (start_guard w).2.filter p = [] := by
  unfold start_guard
  cases w.getenv "PREINIT".toList <;> simp only [List.filter, h1, h2]

theorem start_of_resolved (w : World) (v : Volume) (tr : List Event)
    (hguard : (start_guard w).1 = false) (hres : start_resolve w = some (some v, tr)) :
    start w = some ((start_switch w v).1, (start_guard w).2 ++ tr ++ (start_switch w v).2) := by
  unfold start
  simp [hguard, hres]

theorem start_of_absent (w : World) (tr : List Event)
    (hguard : (start_guard w).1 = false) (hres : start_resolve w = some (none, tr)) :
    start w = some ((start_no_data w).1, (start_guard w).2 ++ tr ++ (start_no_data w).2) := by
  unfold start
  simp [hguard, hres]

/-! ## C1 -/

/-- C1: whenever `start` passes its guard and the resolver yields a volume `v`, `start`
returns, and its trace holds exactly one mount-strategy call, namely the one the
specification assigns to `volume_identify(v)` (`NONE`/`DEADCODE` -> `ramoverlay()`,
`JFFS2`/`UBIFS`/`EXT4` -> `mount_overlay(v)`, `SNAPSHOT` -> `mount_snapshot(v)`), exactly
one classification call, on `v`, and no `mount` of the root device, no `mount_extroot`,
no `jffs2_switch` and no `fs_state_set`. -/
theorem C1_start_selects_one_strategy (w : World) (v : Volume) (tr : List Event)
    (hguard : (start_guard w).1 = false)
    (hres : start_resolve w = some (some v, tr)) :
    ∃ code t, start w = some (code, t) ∧
      t.filter Event.isStrategy = [spec_strategy (w.volume_identify v) v] ∧
      t.filter Event.isIdentify = [.volume_identify v] ∧
      t.filter Event.isMount = [] ∧ t.filter Event.isExtroot = [] ∧
      t.filter Event.isConversion = [] ∧ t.filter Event.isStateSet = [] := by
  have hr := start_resolve_trace w _ tr hres
  refine ⟨_, _, start_of_resolved w v tr hguard hres, ?_, ?_, ?_, ?_, ?_, ?_⟩ <;>
    simp only [List.filter_append] <;>
    rw [start_guard_trace_filter w _ rfl rfl,
      filter_resolution_nil _ (by intro e; cases e <;> simp [Event.isResolution, Event.isStrategy,
        Event.isIdentify, Event.isMount, Event.isExtroot, Event.isConversion,
        Event.isStateSet]) tr hr] <;>
    unfold start_switch <;>
    cases w.volume_identify v <;> rfl

theorem C1_start_selects_one_strategy_witness :
    ∃ code t,
      start (sample_world "console=ttyS0 overlay=mmcblk0p3 root=/dev/sda1\n") = some (code, t) ∧
      t.filter Event.isStrategy = [.mount_overlay 1] ∧
      t.filter Event.isIdentify = [.volume_identify 1] ∧
      t.filter Event.isMount = [] ∧ t.filter Event.isExtroot = [] ∧
      t.filter Event.isConversion = [] ∧ t.filter Event.isStateSet = [] :=
  C1_start_selects_one_strategy
    (sample_world "console=ttyS0 overlay=mmcblk0p3 root=/dev/sda1\n") 1
    [.fopen "/proc/cmdline".toList "r".toList, .fclose,
     .ULOG_NOTE "Looking for overlay device given on commandline\n",
     .volume_find "mmcblk0p3".toList]
    (by decide) (by decide)

/-! ## C2 -/

/-- C2: whenever `start` passes its guard and neither the hinted volume (if the command
line hints at one) nor `rootfs_data` is found, `start` returns 0, whatever status
`mount_extroot` has; the `mount` and `mount_extroot` calls of its trace are, in this
order, `mount("/dev/root", "/", NULL, MS_NOATIME | MS_REMOUNT, 0)` and one
`mount_extroot()`; and the trace holds no `volume_identify`, `ramoverlay`,
`mount_overlay` or `mount_snapshot` call. -/
theorem C2_start_without_volume (w : World)
    (hguard : (start_guard w).1 = false)
    (hhint : ∀ n, parse_hint w.proc_cmdline = some n → w.volume_find n = none)
    (hdata : w.volume_find "rootfs_data".toList = none) :
    ∃ t, start w = some (0, t) ∧
      t.filter (fun e => e.isMount || e.isExtroot) =
        [.mount "/dev/root".toList "/".toList none (MS_NOATIME ||| MS_REMOUNT),
         .mount_extroot] ∧
      t.filter Event.isIdentify = [] ∧ t.filter Event.isStrategy = [] := by
  have hres : ∃ tr, start_resolve w = some (none, tr) := by
    cases hh : parse_hint w.proc_cmdline with
    | none =>
      obtain ⟨tr, ht, _, _⟩ := start_resolve_of_no_hint w hh
      exact ⟨tr, by rw [ht, hdata]⟩
    | some n => exact ⟨_, by rw [start_resolve_of_not_found w n hh (hhint n hh), hdata]⟩
  obtain ⟨tr, hres⟩ := hres
  have hr := start_resolve_trace w _ tr hres
  have hcode : (start_no_data w).1 = 0 := by
    unfold start_no_data
    split <;> rfl
  refine ⟨_, by rw [start_of_absent w tr hguard hres, hcode], ?_, ?_, ?_⟩ <;>
    simp only [List.filter_append] <;>
    rw [start_guard_trace_filter w _ rfl rfl,
      filter_resolution_nil _ (by intro e; cases e <;> simp [Event.isResolution, Event.isStrategy,
        Event.isIdentify, Event.isMount, Event.isExtroot]) tr hr] <;>
    unfold start_no_data <;>
    split <;> rfl

theorem C2_start_without_volume_witness :
    ∃ t, start marker_world = some (0, t) ∧
      t.filter (fun e => e.isMount || e.isExtroot) =
        [.mount "/dev/root".toList "/".toList none (MS_NOATIME ||| MS_REMOUNT),
         .mount_extroot] ∧
      t.filter Event.isIdentify = [] ∧ t.filter Event.isStrategy = [] :=
  C2_start_without_volume marker_world (by decide) (fun _ _ => rfl) rfl

/-! ## C3 -/

theorem done_of_resolved (w : World) (v : Volume) (tr : List Event)
    (hres : done_resolve w = some (some v, tr)) :
    done w = some ((done_switch w v).1, tr ++ (done_switch w v).2) := by
  unfold done
  simp [hres]

/-- C3: whenever the resolver of `done` yields a volume `v`, `done` returns with the trace
of the resolution, then `volume_identify(v)`, then exactly the actions the specification
assigns to the condition: one `jffs2_switch(v)` for `NONE`/`DEADCODE`, one
`fs_state_set("/overlay", FS_STATE_READY)` for `JFFS2`/`UBIFS`/`EXT4`, nothing for
`SNAPSHOT`.  These are all the acting calls of the trace (so no readiness update beside a
conversion and no conversion beside a readiness update), and the status is 0 unless the
condition is `NONE` or `DEADCODE`.  And no run of `done`, with or without a volume,
calls `ramoverlay`, `mount_overlay` or `mount_snapshot`. -/
theorem C3_done_selects_action (w : World) :
    (∀ v tr, done_resolve w = some (some v, tr) →
      ∃ code,
        done w = some (code,
          tr ++ .volume_identify v :: spec_done_actions (w.volume_identify v) v) ∧
        (tr ++ .volume_identify v :: spec_done_actions (w.volume_identify v) v).filter
          Event.isAction = spec_done_actions (w.volume_identify v) v ∧
        (w.volume_identify v ≠ .FS_NONE → w.volume_identify v ≠ .FS_DEADCODE → code = 0)) ∧
    (∀ code t, done w = some (code, t) → t.filter Event.isStrategy = []) := by
  constructor
  · intro v tr hres
    have hr := start_resolve_trace w _ tr hres
    refine ⟨(done_switch w v).1, ?_, ?_, ?_⟩
    · rw [done_of_resolved w v tr hres]
      unfold done_switch
      cases w.volume_identify v <;> rfl
    · rw [List.filter_append, filter_resolution_nil _ (by intro e; cases e <;>
        simp [Event.isResolution, Event.isAction]) tr hr]
      cases w.volume_identify v <;> rfl
    · unfold done_switch
      cases w.volume_identify v <;> simp
  · intro code t h
    obtain ⟨d, tr, hres, hr⟩ := start_resolve_total w
    have hnil := filter_resolution_nil Event.isStrategy (by intro e; cases e <;>
        simp [Event.isResolution, Event.isStrategy]) tr hr
    cases d with
    | none =>
      have hd : done w = some (-1, tr) := by
        unfold done
        rw [done_resolve_eq_start_resolve, hres]
      rw [hd] at h
      simp only [Option.some.injEq, Prod.mk.injEq] at h
      rw [← h.2]
      exact hnil
    | some v =>
      rw [done_of_resolved w v tr hres] at h
      simp only [Option.some.injEq, Prod.mk.injEq] at h
      rw [← h.2, List.filter_append, hnil]
      unfold done_switch
      cases w.volume_identify v <;> rfl

theorem C3_done_selects_action_witness :
    ∃ code,
      done (sample_world "overlay=/dev/mmcblk0p3\n") = some (code,
        hinted_lookup "mmcblk0p3".toList ++
          .volume_identify 1 :: spec_done_actions .FS_EXT4FS 1) ∧
      (hinted_lookup "mmcblk0p3".toList ++
          .volume_identify 1 :: spec_done_actions .FS_EXT4FS 1).filter
        Event.isAction = spec_done_actions .FS_EXT4FS 1 ∧
      (FsType.FS_EXT4FS ≠ .FS_NONE → FsType.FS_EXT4FS ≠ .FS_DEADCODE → code = 0) :=
  (C3_done_selects_action (sample_world "overlay=/dev/mmcblk0p3\n")).1 1
    (hinted_lookup "mmcblk0p3".toList) (by decide)

/-! ## C4 -/

/-- C4: for every command line and volume table in which the hinted lookup (if the command
line hints at a name) and the `rootfs_data` lookup both fail, `done` returns -1, and its
trace holds no `volume_identify`, no `jffs2_switch`, no `fs_state_set` and no other
acting call. -/
theorem C4_done_without_volume (w : World)
    (hhint : ∀ n, parse_hint w.proc_cmdline = some n → w.volume_find n = none)
    (hdata : w.volume_find "rootfs_data".toList = none) :
    ∃ t, done w = some (-1, t) ∧
      t.filter Event.isIdentify = [] ∧ t.filter Event.isConversion = [] ∧
      t.filter Event.isStateSet = [] ∧ t.filter Event.isAction = [] := by
  have hres : ∃ tr, done_resolve w = some (none, tr) := by
    rw [done_resolve_eq_start_resolve]
    cases hh : parse_hint w.proc_cmdline with
    | none =>
      obtain ⟨tr, ht, _, _⟩ := start_resolve_of_no_hint w hh
      exact ⟨tr, by rw [ht, hdata]⟩
    | some n => exact ⟨_, by rw [start_resolve_of_not_found w n hh (hhint n hh), hdata]⟩
  obtain ⟨tr, hres⟩ := hres
  have hr := start_resolve_trace w _ tr hres
  refine ⟨tr, by unfold done; simp [hres], ?_, ?_, ?_, ?_⟩ <;>
    exact filter_resolution_nil _ (by intro e; cases e <;> simp [Event.isResolution,
      Event.isIdentify, Event.isConversion, Event.isStateSet, Event.isAction]) tr hr

theorem C4_done_without_volume_witness :
    ∃ t, done marker_world = some (-1, t) ∧
      t.filter Event.isIdentify = [] ∧ t.filter Event.isConversion = [] ∧
      t.filter Event.isStateSet = [] ∧ t.filter Event.isAction = [] :=
  C4_done_without_volume marker_world (fun _ _ => rfl) rfl

/-! ## C5 -/

/-- C5: whenever the hint parser yields a name `n` and `volume_find(n)` finds a volume `v`,
the resolver of `start` and the resolver of `done` both yield `v`, for every volume table
(whatever it holds under `rootfs_data`), and the only `volume_find` call made is the one
for `n`: the fallback lookup of `rootfs_data` is not made. -/
theorem C5_hint_has_priority (w : World) (n : CStr) (v : Volume)
    (hhint : parse_hint w.proc_cmdline = some n) (hfound : w.volume_find n = some v) :
    ∃ tr, start_resolve w = some (some v, tr) ∧ done_resolve w = some (some v, tr) ∧
      tr.filter Event.isFind = [.volume_find n] := by
  refine ⟨hinted_lookup n, start_resolve_of_found w n v hhint hfound, ?_, rfl⟩
  rw [done_resolve_eq_start_resolve]
  exact start_resolve_of_found w n v hhint hfound

theorem C5_hint_has_priority_witness :
    (sample_world "console=ttyS0 overlay=mmcblk0p3 rw\n").volume_find "rootfs_data".toList
      = some 2 ∧
    ∃ tr,
      start_resolve (sample_world "console=ttyS0 overlay=mmcblk0p3 rw\n") = some (some 1, tr) ∧
      done_resolve (sample_world "console=ttyS0 overlay=mmcblk0p3 rw\n") = some (some 1, tr) ∧
      tr.filter Event.isFind = [.volume_find "mmcblk0p3".toList] :=
  ⟨rfl, C5_hint_has_priority (sample_world "console=ttyS0 overlay=mmcblk0p3 rw\n")
    "mmcblk0p3".toList 1 (by decide) (by decide)⟩

/-! ## C6 -/

theorem resolved_start_resolve (w : World) :
    resolved (start_resolve w) =
      some (match parse_hint w.proc_cmdline with
        | none => w.volume_find "rootfs_data".toList
        | some n =>
          match w.volume_find n with
          | some v => some v
          | none => w.volume_find "rootfs_data".toList) := by
  cases hh : parse_hint w.proc_cmdline with
  | none =>
    obtain ⟨tr, ht, _, _⟩ := start_resolve_of_no_hint w hh
    rw [ht]
    rfl
  | some n =>
    cases hv : w.volume_find n with
    | none =>
      rw [start_resolve_of_not_found w n hh hv]
      simp [resolved, hv]
    | some v =>
      rw [start_resolve_of_found w n v hh hv]
      simp [resolved, hv]

/-- C6: when the command line gives no hint, or the hinted name is not found by
`volume_find`, the resolver of `start` and the resolver of `done` yield
`volume_find("rootfs_data")`; and either resolver reports "absent" if and only if the
hinted lookup (when there is a hint) and the `rootfs_data` lookup both fail. -/
theorem C6_resolver_fallback (w : World) :
    ((parse_hint w.proc_cmdline = none ∨
        ∃ n, parse_hint w.proc_cmdline = some n ∧ w.volume_find n = none) →
      resolved (start_resolve w) = some (w.volume_find "rootfs_data".toList) ∧
      resolved (done_resolve w) = some (w.volume_find "rootfs_data".toList)) ∧
    (resolved (start_resolve w) = some none ↔
      ((∀ n, parse_hint w.proc_cmdline = some n → w.volume_find n = none) ∧
        w.volume_find "rootfs_data".toList = none)) ∧
    (resolved (done_resolve w) = some none ↔
      ((∀ n, parse_hint w.proc_cmdline = some n → w.volume_find n = none) ∧
        w.volume_find "rootfs_data".toList = none)) := by
  rw [done_resolve_eq_start_resolve, resolved_start_resolve]
  refine ⟨?_, ?_, ?_⟩
  · rintro (h | ⟨n, h, hv⟩)
    · simp [h]
    · simp [h, hv]
  all_goals
    cases hh : parse_hint w.proc_cmdline with
    | none => simp
    | some n =>
      cases hv : w.volume_find n with
      | none => simp [hv]
      | some v => simp [hv]

/-! ## C7 -/

/-- C7, as stated, fails.  With `PREINIT` unset and `/tmp/.preinit` present the claim has
`start` return -1 at once; the code goes on, looks volumes up, remounts the root device
and returns 0.  With `PREINIT` unset and the marker file absent the claim has `start`
proceed; the code returns -1 after the guard. -/
theorem C7_counterexample :
    (marker_world.getenv "PREINIT".toList = none ∧
      marker_world.file_exists "/tmp/.preinit".toList = true ∧
      spec_start_guard marker_world = false ∧
      start marker_world = some (0,
        [.getenv "PREINIT".toList, .stat "/tmp/.preinit".toList,
         .fopen "/proc/cmdline".toList "r".toList, .fclose,
         .volume_find "rootfs_data".toList,
         .volume_find "rootfs".toList, .volume_init none,
         .ULOG_NOTE "mounting /dev/root\n",
         .mount "/dev/root".toList "/".toList none 1056,
         .extroot_prefix_assign [], .mount_extroot])) ∧
    (bare_world.getenv "PREINIT".toList = none ∧
      bare_world.file_exists "/tmp/.preinit".toList = false ∧
      spec_start_guard bare_world = true ∧
      start bare_world = some (-1,
        [.getenv "PREINIT".toList, .stat "/tmp/.preinit".toList])) := by
  decide

/-- C7, amended: `start` proceeds past its guard if and only if `PREINIT` is set or
`stat("/tmp/.preinit")` succeeds (the marker file is present).  When the guard does not
let it pass (`PREINIT` unset and the marker file absent) it returns -1 having made the
two guard calls only; when it passes, `start` goes on to open `/proc/cmdline`. -/
theorem C7_start_guard (w : World) :
    ((start_guard w).1 = false ↔
      (w.getenv "PREINIT".toList ≠ none ∨ w.file_exists "/tmp/.preinit".toList = true)) ∧
    ((start_guard w).1 = true →
      start w = some (-1, [.getenv "PREINIT".toList, .stat "/tmp/.preinit".toList])) ∧
    ((start_guard w).1 = false →
      ∃ code t, start w = some (code, t) ∧
        Event.fopen "/proc/cmdline".toList "r".toList ∈ t) := by
  refine ⟨?_, ?_, ?_⟩
  · unfold start_guard stat
    cases w.getenv "PREINIT".toList <;> cases w.file_exists "/tmp/.preinit".toList <;> simp
  · intro hg
    have ht : (start_guard w).2 =
        [.getenv "PREINIT".toList, .stat "/tmp/.preinit".toList] := by
      unfold start_guard at hg ⊢
      cases hp : w.getenv "PREINIT".toList with
      | none => rfl
      | some x =>
        rw [hp] at hg
        exact absurd hg (by simp)
    unfold start
    rw [hg, ht]
    rfl
  · intro hg
    have hopen : ∀ d tr, start_resolve w = some (d, tr) →
        Event.fopen "/proc/cmdline".toList "r".toList ∈ tr := by
      intro d tr h
      cases hh : parse_hint w.proc_cmdline with
      | none =>
        unfold start_resolve at h
        unfold parse_hint at hh
        unfold start_hint at h
        cases hc : w.proc_cmdline with
        | none =>
          simp only [hc, Option.some.injEq, Prod.mk.injEq] at h
          rw [← h.2]
          exact List.mem_cons_self _ _
        | some text =>
          rw [hc] at hh
          obtain ⟨buffer, hs⟩ := cmdline_scan_terminates text
          cases buffer with
          | nil =>
            simp only [hc, hs, Option.some.injEq, Prod.mk.injEq] at h
            rw [← h.2]
            exact List.mem_cons_self _ _
          | cons b bs => simp [hs] at hh
      | some n =>
        cases hv : w.volume_find n with
        | none =>
          rw [start_resolve_of_not_found w n hh hv] at h
          simp only [Option.some.injEq, Prod.mk.injEq] at h
          rw [← h.2]
          exact List.mem_cons_self _ _
        | some v =>
          rw [start_resolve_of_found w n v hh hv] at h
          simp only [Option.some.injEq, Prod.mk.injEq] at h
          rw [← h.2]
          exact List.mem_cons_self _ _
    obtain ⟨d, tr, hres, _⟩ := start_resolve_total w
    have hin := hopen d tr hres
    cases d with
    | none =>
      exact ⟨_, _, start_of_absent w tr hg hres,
        List.mem_append_left _ (List.mem_append_right _ hin)⟩
    | some v =>
      exact ⟨_, _, start_of_resolved w v tr hg hres,
        List.mem_append_left _ (List.mem_append_right _ hin)⟩

/-! ## C8 -/

/-- C8, as stated, fails: two runs of `start` on an unformatted `rootfs_data` that differ
only in the status of `ramoverlay()` end with different statuses, and two runs of `done`
that differ only in the status of `jffs2_switch()` do too. -/
theorem C8_counterexample :
    exit_code (start (blank_world 0 0)) = some 0 ∧
    exit_code (start (blank_world (-1) 0)) = some (-1) ∧
    exit_code (done (blank_world 0 0)) = some 0 ∧
    exit_code (done (blank_world 0 (-1))) = some (-1) := by
  decide

/-- C8, amended: the status of `start` does not depend on the statuses returned by
`mount_overlay`, `mount_snapshot`, `mount_extroot` (and `jffs2_switch`, which it does not
call), and the status of `done` does not depend on those of `mount_overlay`,
`mount_snapshot`, `mount_extroot` and `ramoverlay` (none of which it calls): replacing
them in an otherwise unchanged world leaves the status unchanged.  On a volume that is
`NONE` or `DEADCODE`, the status of `start` is the status of `ramoverlay()` and the
status of `done` is the status of `jffs2_switch(v)`. -/
theorem C8_exit_code_independence (w : World) (mo ms js : Volume → Int) (me ro : Int) :
    exit_code (start { w with
        mount_overlay := mo, mount_snapshot := ms, mount_extroot := me,
        jffs2_switch := js }) = exit_code (start w) ∧
    exit_code (done { w with
        mount_overlay := mo, mount_snapshot := ms, mount_extroot := me,
        ramoverlay := ro }) = exit_code (done w) ∧
    (∀ v tr, (start_guard w).1 = false → start_resolve w = some (some v, tr) →
      (w.volume_identify v = .FS_NONE ∨ w.volume_identify v = .FS_DEADCODE) →
      exit_code (start w) = some w.ramoverlay) ∧
    (∀ v tr, done_resolve w = some (some v, tr) →
      (w.volume_identify v = .FS_NONE ∨ w.volume_identify v = .FS_DEADCODE) →
      exit_code (done w) = some (w.jffs2_switch v)) := by
  refine ⟨?_, ?_, ?_, ?_⟩
  · have hg : start_guard { w with
        mount_overlay := mo, mount_snapshot := ms, mount_extroot := me,
        jffs2_switch := js } = start_guard w := rfl
    have hr : start_resolve { w with
        mount_overlay := mo, mount_snapshot := ms, mount_extroot := me,
        jffs2_switch := js } = start_resolve w := rfl
    unfold start
    rw [hg, hr]
    cases (start_guard w).1
    · cases start_resolve w with
      | none => rfl
      | some p =>
        obtain ⟨d, tr⟩ := p
        cases d with
        | none =>
          simp only [Bool.false_eq_true, if_false, exit_code, Option.map_some',
            Option.some.injEq, start_no_data]
          split <;> split <;> rfl
        | some v =>
          simp only [Bool.false_eq_true, if_false, exit_code, Option.map_some',
            Option.some.injEq, start_switch]
    · rfl
  · have hr : done_resolve { w with
        mount_overlay := mo, mount_snapshot := ms, mount_extroot := me,
        ramoverlay := ro } = done_resolve w := rfl
    unfold done
    rw [hr]
    cases done_resolve w with
    | none => rfl
    | some p =>
      obtain ⟨d, tr⟩ := p
      cases d with
      | none => rfl
      | some v =>
        simp only [exit_code, Option.map_some', Option.some.injEq, done_switch]
  · intro v tr hg hres hid
    rw [start_of_resolved w v tr hg hres]
    unfold start_switch
    rcases hid with hid | hid <;> rw [hid] <;> rfl
  · intro v tr hres hid
    rw [done_of_resolved w v tr hres]
    unfold done_switch
    rcases hid with hid | hid <;> rw [hid] <;> rfl

/-! ## The scan finds the first `overlay=` token -/

theorem match_literal_append (l r : CStr) : match_literal l (l ++ r) = .matched r := by
  induction l with
  | nil => cases r <;> rfl
  | cons f fs ih => simp [match_literal, ih]

theorem match_literal_matched (l inp r : CStr) (h : match_literal l inp = .matched r) :
    inp = l ++ r := by
  induction l generalizing inp with
  | nil =>
    cases inp <;> simp only [match_literal, LiteralMatch.matched.injEq] at h <;> simp [h]
  | cons f fs ih =>
    cases inp with
    | nil => simp [match_literal] at h
    | cons c cs =>
      by_cases hc : c = f
      · simp only [match_literal, hc, if_true] at h
        rw [ih cs h, hc]
        rfl
      · simp [match_literal, hc] at h

/-- Matching a white-space-free literal against an input whose first part `pre` ends in
white space: either the whole literal matches, or the mismatch is at a character of
`pre`. -/
theorem match_literal_in_pre (l : CStr) (hl : ∀ c ∈ l, isspace c = false) :
    ∀ (pre s : CStr), pre ≠ [] → (∀ c, pre.getLast? = some c → isspace c = true) →
      (∃ r, match_literal l (pre ++ s) = .matched r) ∨
      (∃ q x pre', pre = q ++ x :: pre' ∧
        match_literal l (pre ++ s) = .matching_failure (x :: (pre' ++ s))) := by
  induction l with
  | nil =>
    intro pre s _ _
    exact Or.inl ⟨pre ++ s, by cases pre <;> cases s <;> rfl⟩
  | cons f fs ih =>
    intro pre s hne hlast
    cases pre with
    | nil => exact absurd rfl hne
    | cons c cs =>
      by_cases hc : c = f
      · have hcs : isspace c = false := by
          rw [hc]
          exact hl f (List.mem_cons_self _ _)
        have hcne : cs ≠ [] := by
          intro h0
          subst h0
          have := hlast c rfl
          rw [hcs] at this
          exact Bool.noConfusion this
        have hlast' : ∀ d, cs.getLast? = some d → isspace d = true := by
          intro d hd
          apply hlast d
          cases cs with
          | nil => exact absurd rfl hcne
          | cons e es => simpa using hd
        have hfs : ∀ d ∈ fs, isspace d = false := fun d hd => hl d (List.mem_cons_of_mem _ hd)
        rcases ih hfs cs s hcne hlast' with ⟨r, hr⟩ | ⟨q, x, pre', hq, hm⟩
        · refine Or.inl ⟨r, ?_⟩
          show match_literal (f :: fs) (c :: (cs ++ s)) = _
          simp only [match_literal, hc, if_true, hr]
        · refine Or.inr ⟨c :: q, x, pre', by rw [hq]; rfl, ?_⟩
          show match_literal (f :: fs) (c :: (cs ++ s)) = _
          simp only [match_literal, hc, if_true, hm]
      · refine Or.inr ⟨[], c, cs, rfl, ?_⟩
        show match_literal (f :: fs) (c :: (cs ++ s)) = _
        simp only [match_literal, hc, if_false]

theorem overlay_literal_no_space : ∀ c ∈ overlay_literal, isspace c = false := by decide

theorem takeWhile_word (v post : CStr) (hvw : ∀ c ∈ v, isspace c = false)
    (hpost : ∀ c, post.head? = some c → isspace c = true) :
    (v ++ post).takeWhile (fun x => !isspace x) = v := by
  rw [List.takeWhile_append_of_pos (by intro a ha; simp [hvw a ha])]
  cases post with
  | nil => simp
  | cons c r =>
    have := hpost c rfl
    simp [List.takeWhile_cons, this]

/-- At the start of a token `overlay=<v>`, `fscanf` stores `v` and returns 1. -/
theorem fscanf_overlay_at_token (v post buffer : CStr) (e : Bool) (hv : v ≠ [])
    (hvw : ∀ c ∈ v, isspace c = false)
    (hpost : ∀ c, post.head? = some c → isspace c = true) :
    ∃ fp, fscanf_overlay ⟨overlay_literal ++ (v ++ post), e⟩ buffer = (1, fp, v) := by
  unfold fscanf_overlay
  simp only [match_literal_append]
  cases v with
  | nil => exact absurd rfl hv
  | cons c cs =>
    have hc : isspace c = false := hvw c (List.mem_cons_self _ _)
    have hd : List.dropWhile isspace (c :: cs ++ post) = c :: (cs ++ post) := by
      simp [List.dropWhile_cons, hc]
    rw [hd]
    have ht := takeWhile_word (c :: cs) post hvw hpost
    simp only [List.cons_append] at ht
    refine ⟨⟨List.dropWhile (fun x => !isspace x) (c :: (cs ++ post)),
      (List.dropWhile (fun x => !isspace x) (c :: (cs ++ post))).isEmpty⟩, ?_⟩
    simp only [ht]

/-- The scan loop, started anywhere before a white-space-delimited token `overlay=<v>`
that is not preceded by another occurrence of `overlay=`, leaves with `v` in the buffer. -/
theorem scan_loop_finds_token (v post : CStr) (hv : v ≠ [])
    (hvw : ∀ c ∈ v, isspace c = false)
    (hpost : ∀ c, post.head? = some c → isspace c = true) :
    ∀ (n : Nat) (pre : CStr) (fuel : Nat) (buffer : CStr),
      pre.length ≤ n → pre.length < fuel →
      (∀ c, pre.getLast? = some c → isspace c = true) →
      (∀ k, k < pre.length →
        ¬ overlay_literal <+: (pre ++ (overlay_literal ++ (v ++ post))).drop k) →
      ∃ fp, scan_loop fuel ⟨pre ++ (overlay_literal ++ (v ++ post)), false⟩ buffer
        = some (fp, v) := by
  intro n
  induction n with
  | zero =>
    intro pre fuel buffer hn hf _ _
    have hp : pre = [] := List.length_eq_zero.mp (Nat.le_zero.mp hn)
    subst hp
    cases fuel with
    | zero => exact absurd hf (by simp)
    | succ f =>
      obtain ⟨fp, hfp⟩ := fscanf_overlay_at_token v post buffer false hv hvw hpost
      exact ⟨fp, by simp [scan_loop, feof, hfp]⟩
  | succ n ih =>
    intro pre fuel buffer hn hf hlast hocc
    cases fuel with
    | zero => exact absurd hf (by simp)
    | succ f =>
      by_cases hp : pre = []
      · subst hp
        obtain ⟨fp, hfp⟩ := fscanf_overlay_at_token v post buffer false hv hvw hpost
        exact ⟨fp, by simp [scan_loop, feof, hfp]⟩
      · rcases match_literal_in_pre overlay_literal overlay_literal_no_space pre
            (overlay_literal ++ (v ++ post)) hp hlast with ⟨r, hr⟩ | ⟨q, x, pre', hq, hm⟩
        · exfalso
          have h0 := hocc 0 (List.length_pos.mpr hp)
          apply h0
          rw [List.drop_zero, match_literal_matched _ _ _ hr]
          exact List.prefix_append _ _
        · have hlen : pre.length = q.length + (pre'.length + 1) := by
            rw [hq]
            simp
          have hlast' : ∀ c, pre'.getLast? = some c → isspace c = true := by
            intro c hc
            apply hlast c
            rw [hq]
            cases pre' with
            | nil => simp at hc
            | cons y ys =>
              rw [show q ++ x :: y :: ys = (q ++ [x]) ++ (y :: ys) by simp,
                List.getLast?_append_of_ne_nil _ (by simp)]
              exact hc
          have hocc' : ∀ k, k < pre'.length →
              ¬ overlay_literal <+: (pre' ++ (overlay_literal ++ (v ++ post))).drop k := by
            intro k hk
            have := hocc (q.length + 1 + k) (by omega)
            rw [hq] at this
            rw [show (q ++ x :: pre') ++ (overlay_literal ++ (v ++ post))
                = (q ++ [x]) ++ (pre' ++ (overlay_literal ++ (v ++ post))) by simp,
              show q.length + 1 + k = (q ++ [x]).length + k by simp,
              List.drop_append] at this
            exact this
          obtain ⟨fp, hfp⟩ := ih pre' f buffer (by omega) (by omega) hlast' hocc'
          refine ⟨fp, ?_⟩
          have hfs : fscanf_overlay ⟨pre ++ (overlay_literal ++ (v ++ post)), false⟩ buffer
              = (0, ⟨x :: (pre' ++ (overlay_literal ++ (v ++ post))), false⟩, buffer) := by
            unfold fscanf_overlay
            simp only [hm]
          simp only [scan_loop, feof, hfs, fseek_cur, List.drop_succ_cons, List.drop_zero,
            ne_eq, not_true_eq_false, if_false, Bool.false_eq_true]
          exact hfp

/-! ## C9 -/

/-- C9: for every command-line text `pre ++ "overlay=" ++ v ++ post` in which `v` is
non-empty and free of white space, the token is delimited by white space (`pre` is empty
or ends in white space, `post` is empty or begins with white space) and the text
`overlay=` occurs at no other position, the scan loop leaves with exactly `v` in the
buffer: wherever the token stands and whatever the other tokens are. -/
theorem C9_scan_position_independent (pre v post : CStr)
    (hv : v ≠ [])
    (hvw : ∀ c ∈ v, isspace c = false)
    (hpre : ∀ c, pre.getLast? = some c → isspace c = true)
    (hpost : ∀ c, post.head? = some c → isspace c = true)
    (huniq : ∀ k, k < (pre ++ overlay_literal ++ v ++ post).length →
      overlay_literal.isPrefixOf ((pre ++ overlay_literal ++ v ++ post).drop k) = true →
      k = pre.length) :
    cmdline_scan (pre ++ overlay_literal ++ v ++ post) = some v := by
  have hassoc : pre ++ overlay_literal ++ v ++ post
      = pre ++ (overlay_literal ++ (v ++ post)) := by simp
  rw [hassoc] at huniq ⊢
  have hocc : ∀ k, k < pre.length →
      ¬ overlay_literal <+: (pre ++ (overlay_literal ++ (v ++ post))).drop k := by
    intro k hk hpfx
    have := huniq k (by simp; omega) (List.isPrefixOf_iff_prefix.mpr hpfx)
    omega
  obtain ⟨fp, hfp⟩ := scan_loop_finds_token v post hv hvw hpost pre.length pre
    ((pre ++ (overlay_literal ++ (v ++ post))).length + 1) [] (Nat.le_refl _)
    (by simp; omega) hpre hocc
  unfold cmdline_scan
  rw [hfp]
  rfl

theorem C9_scan_position_independent_witness :
    cmdline_scan ("o over console=ttyS0 ".toList ++ overlay_literal ++ "mmcblk0p3".toList
      ++ " root=/dev/sda1\n".toList) = some "mmcblk0p3".toList :=
  C9_scan_position_independent "o over console=ttyS0 ".toList "mmcblk0p3".toList
    " root=/dev/sda1\n".toList (by decide) (by decide) (by decide) (by decide) (by decide)

/-! ## C10 -/

theorem overlay_name_of_dev (name : CStr) : overlay_name ("/dev/".toList ++ name) = name := by
  have h : strstr ("/dev/".toList ++ name) "/dev/".toList = true := by
    simp [strstr, List.isPrefixOf]
  unfold overlay_name
  rw [h]
  rfl

theorem overlay_name_of_no_dev (v : CStr) (h : strstr v "/dev/".toList = false) :
    overlay_name v = v := by
  unfold overlay_name
  rw [h]
  rfl

/-- C10: the code at the command line `console=ttyS0 overlay=/mnt/dev/sda3 rw`.  The
scan stores `/mnt/dev/sda3`, which does not begin with `/dev/`; `strstr` finds `/dev/`
inside it, so the first five characters are dropped and `volume_find` is called with
`dev/sda3`, where the comment of lines 66-68 ("strip /dev/ prefix if any") and the claim
have it called with `/mnt/dev/sda3`. -/
theorem C10_inner_dev_drops_five_characters :
    cmdline_scan "console=ttyS0 overlay=/mnt/dev/sda3 rw\n".toList
      = some "/mnt/dev/sda3".toList ∧
    "/dev/".toList.isPrefixOf "/mnt/dev/sda3".toList = false ∧
    overlay_name "/mnt/dev/sda3".toList = "dev/sda3".toList ∧
    start (sample_world "console=ttyS0 overlay=/mnt/dev/sda3 rw\n") = some (0,
      [.getenv "PREINIT".toList,
       .fopen "/proc/cmdline".toList "r".toList, .fclose,
       .ULOG_NOTE "Looking for overlay device given on commandline\n",
       .volume_find "dev/sda3".toList,
       .volume_find "rootfs_data".toList,
       .volume_identify 2,
       .ULOG_WARN "no usable overlay filesystem found, using tmpfs overlay\n",
       .ramoverlay]) := by
  decide

/-! ## C11 -/

theorem prefix_append_of_length_le (l a x : CStr) (h : l.length ≤ a.length) :
    l <+: a ++ x ↔ l <+: a := by
  rw [List.prefix_iff_eq_take, List.prefix_iff_eq_take, List.take_append_of_le_length h]

/-- Whether `overlay=` stands at a position before the token does not depend on what
follows the token's `overlay=`. -/
theorem occurrence_before_token (pre x y : CStr) (k : Nat) (hk : k < pre.length) :
    overlay_literal <+: (pre ++ (overlay_literal ++ x)).drop k ↔
      overlay_literal <+: (pre ++ (overlay_literal ++ y)).drop k := by
  have hlen : overlay_literal.length ≤ (pre.drop k ++ overlay_literal).length := by simp
  rw [List.drop_append_of_le_length (Nat.le_of_lt hk),
    List.drop_append_of_le_length (Nat.le_of_lt hk),
    ← List.append_assoc, ← List.append_assoc,
    prefix_append_of_length_le _ _ x hlen, prefix_append_of_length_le _ _ y hlen]

theorem strstr_eq_false_of_not_mem (n : CStr) (h : '/' ∉ n) :
    strstr n "/dev/".toList = false := by
  induction n with
  | nil => rfl
  | cons c cs ih =>
    have hc : c ≠ '/' := fun e => h (e ▸ List.mem_cons_self _ _)
    have hcs : '/' ∉ cs := fun e => h (List.mem_cons_of_mem _ e)
    have hc' : ('/' == c) = false := by
      simp only [beq_eq_false_iff_ne, ne_eq]
      exact fun e => hc e.symm
    show (List.isPrefixOf "/dev/".toList (c :: cs) || strstr cs "/dev/".toList) = false
    rw [ih hcs, Bool.or_false]
    show (('/' == c) && List.isPrefixOf "dev/".toList cs) = false
    rw [hc', Bool.false_and]

theorem cmdline_scan_token (pre v post : CStr) (hv : v ≠ [])
    (hvw : ∀ c ∈ v, isspace c = false)
    (hpre : ∀ c, pre.getLast? = some c → isspace c = true)
    (hpost : ∀ c, post.head? = some c → isspace c = true)
    (hfirst : ∀ k, k < pre.length →
      ¬ overlay_literal <+: (pre ++ (overlay_literal ++ (v ++ post))).drop k) :
    cmdline_scan (pre ++ (overlay_literal ++ (v ++ post))) = some v := by
  obtain ⟨fp, hfp⟩ := scan_loop_finds_token v post hv hvw hpost pre.length pre
    ((pre ++ (overlay_literal ++ (v ++ post))).length + 1) [] (Nat.le_refl _)
    (by simp; omega) hpre hfirst
  unfold cmdline_scan
  rw [hfp]
  rfl

/-- Let `n` be a non-empty device name without `/` and without white space, and let no
`overlay=` stand before a white-space-delimited token.  Then the command line with the
token `overlay=/dev/n` and the one with the token `overlay=n` give the same hint `n`, and
for every world (volume table included) the resolvers of `start` and of `done` make the
same calls and yield the same volume on the two command lines. -/
theorem dev_prefix_equivalence_of_first_token (w : World) (pre n post : CStr)
    (hn : n ≠ [])
    (hslash : '/' ∉ n)
    (hnw : ∀ c ∈ n, isspace c = false)
    (hpre : ∀ c, pre.getLast? = some c → isspace c = true)
    (hpost : ∀ c, post.head? = some c → isspace c = true)
    (hfirst : ∀ k, k < pre.length →
      occurs_at (pre ++ overlay_literal ++ ("/dev/".toList ++ n) ++ post) k = false) :
    parse_hint (some (pre ++ overlay_literal ++ ("/dev/".toList ++ n) ++ post)) = some n ∧
    parse_hint (some (pre ++ overlay_literal ++ n ++ post)) = some n ∧
    start_resolve { w with
        proc_cmdline := some (pre ++ overlay_literal ++ ("/dev/".toList ++ n) ++ post) }
      = start_resolve { w with proc_cmdline := some (pre ++ overlay_literal ++ n ++ post) } ∧
    done_resolve { w with
        proc_cmdline := some (pre ++ overlay_literal ++ ("/dev/".toList ++ n) ++ post) }
      = done_resolve { w with proc_cmdline := some (pre ++ overlay_literal ++ n ++ post) } := by
  have h1 : pre ++ overlay_literal ++ ("/dev/".toList ++ n) ++ post
      = pre ++ (overlay_literal ++ (("/dev/".toList ++ n) ++ post)) := by
    simp only [List.append_assoc]
  have h2 : pre ++ overlay_literal ++ n ++ post = pre ++ (overlay_literal ++ (n ++ post)) := by
    simp only [List.append_assoc]
  rw [h1] at hfirst
  rw [h1, h2]
  have hocc1 : ∀ k, k < pre.length → ¬ overlay_literal <+:
      (pre ++ (overlay_literal ++ (("/dev/".toList ++ n) ++ post))).drop k := by
    intro k hk hp
    have := hfirst k hk
    unfold occurs_at at this
    rw [List.isPrefixOf_iff_prefix.mpr hp] at this
    exact Bool.noConfusion this
  have hocc2 : ∀ k, k < pre.length → ¬ overlay_literal <+:
      (pre ++ (overlay_literal ++ (n ++ post))).drop k := by
    intro k hk hp
    exact hocc1 k hk ((occurrence_before_token pre _ _ k hk).mp hp)
  have hd : ∀ c ∈ "/dev/".toList, isspace c = false := by decide
  have hdw : ∀ c ∈ "/dev/".toList ++ n, isspace c = false := by
    intro c hc
    rcases List.mem_append.mp hc with hc | hc
    · exact hd c hc
    · exact hnw c hc
  have hs1 := cmdline_scan_token pre ("/dev/".toList ++ n) post (by simp) hdw hpre hpost hocc1
  have hs2 := cmdline_scan_token pre n post hn hnw hpre hpost hocc2
  have hname2 : overlay_name n = n := overlay_name_of_no_dev n (strstr_eq_false_of_not_mem n hslash)
  have hp1 : parse_hint (some (pre ++ (overlay_literal ++ (("/dev/".toList ++ n) ++ post))))
      = some n := by
    unfold parse_hint
    simp only [hs1]
    exact congrArg some (overlay_name_of_dev n)
  have hp2 : parse_hint (some (pre ++ (overlay_literal ++ (n ++ post)))) = some n := by
    unfold parse_hint
    simp only [hs2]
    cases n with
    | nil => exact absurd rfl hn
    | cons c cs => exact congrArg some hname2
  have hr : ∀ t1 t2 : CStr, parse_hint (some t1) = some n → parse_hint (some t2) = some n →
      start_resolve { w with proc_cmdline := some t1 }
        = start_resolve { w with proc_cmdline := some t2 } := by
    intro t1 t2 ht1 ht2
    cases hv : w.volume_find n with
    | none =>
      rw [start_resolve_of_not_found { w with proc_cmdline := some t1 } n ht1 hv,
        start_resolve_of_not_found { w with proc_cmdline := some t2 } n ht2 hv]
    | some v =>
      rw [start_resolve_of_found { w with proc_cmdline := some t1 } n v ht1 hv,
        start_resolve_of_found { w with proc_cmdline := some t2 } n v ht2 hv]
  refine ⟨hp1, hp2, hr _ _ hp1 hp2, ?_⟩
  rw [done_resolve_eq_start_resolve, done_resolve_eq_start_resolve]
  exact hr _ _ hp1 hp2

theorem dev_prefix_equivalence_of_first_token_mmcblk0p3 :
    parse_hint (some ("console=ttyS0 ".toList ++ overlay_literal
      ++ ("/dev/".toList ++ "mmcblk0p3".toList) ++ " rw\n".toList))
      = some "mmcblk0p3".toList ∧
    parse_hint (some ("console=ttyS0 ".toList ++ overlay_literal
      ++ "mmcblk0p3".toList ++ " rw\n".toList)) = some "mmcblk0p3".toList ∧
    start_resolve { sample_world "" with
        proc_cmdline := some ("console=ttyS0 ".toList ++ overlay_literal
          ++ ("/dev/".toList ++ "mmcblk0p3".toList) ++ " rw\n".toList) }
      = start_resolve { sample_world "" with
        proc_cmdline := some ("console=ttyS0 ".toList ++ overlay_literal
          ++ "mmcblk0p3".toList ++ " rw\n".toList) } ∧
    done_resolve { sample_world "" with
        proc_cmdline := some ("console=ttyS0 ".toList ++ overlay_literal
          ++ ("/dev/".toList ++ "mmcblk0p3".toList) ++ " rw\n".toList) }
      = done_resolve { sample_world "" with
        proc_cmdline := some ("console=ttyS0 ".toList ++ overlay_literal
          ++ "mmcblk0p3".toList ++ " rw\n".toList) } :=
  dev_prefix_equivalence_of_first_token (sample_world "") "console=ttyS0 ".toList "mmcblk0p3".toList
    " rw\n".toList (by decide) (by decide) (by decide) (by decide) (by decide) (by decide)

/-- C11: the code at the command line `console=ttyS0 init_overlay= overlay=/dev/sda1 rw`
and at the one obtained by replacing the token `overlay=/dev/sda1` with `overlay=sda1`.
In both, the overlay token is the only token that begins with `overlay=`, and `sda1` has
no `/` and no white space, so the claim has both pass `sda1` to `volume_find`.  The scan
matches the `overlay=` inside `init_overlay=`, `%s` skips the blank and stores the whole
next token; with the `/dev/` form five characters are dropped and the name passed is
`ay=/dev/sda1`, with the other form the name passed is `overlay=sda1`.  On a table that
holds a volume named `overlay=sda1` the two command lines resolve to different volumes. -/
theorem C11_empty_value_before_token :
    (tokens "console=ttyS0 init_overlay= overlay=/dev/sda1 rw\n".toList).filter
        (fun t => overlay_literal.isPrefixOf t) = ["overlay=/dev/sda1".toList] ∧
    (tokens "console=ttyS0 init_overlay= overlay=sda1 rw\n".toList).filter
        (fun t => overlay_literal.isPrefixOf t) = ["overlay=sda1".toList] ∧
    parse_hint (some "console=ttyS0 init_overlay= overlay=/dev/sda1 rw\n".toList)
      = some "ay=/dev/sda1".toList ∧
    parse_hint (some "console=ttyS0 init_overlay= overlay=sda1 rw\n".toList)
      = some "overlay=sda1".toList ∧
    start_resolve (named_world "console=ttyS0 init_overlay= overlay=/dev/sda1 rw\n") =
      some (some 2,
        hinted_lookup "ay=/dev/sda1".toList ++ [.volume_find "rootfs_data".toList]) ∧
    start_resolve (named_world "console=ttyS0 init_overlay= overlay=sda1 rw\n") =
      some (some 3, hinted_lookup "overlay=sda1".toList) ∧
    done_resolve (named_world "console=ttyS0 init_overlay= overlay=/dev/sda1 rw\n") =
      some (some 2,
        hinted_lookup "ay=/dev/sda1".toList ++ [.volume_find "rootfs_data".toList]) ∧
    done_resolve (named_world "console=ttyS0 init_overlay= overlay=sda1 rw\n") =
      some (some 3, hinted_lookup "overlay=sda1".toList) := by
  decide

/-! ## C12 -/

theorem match_literal_failure_drop (l inp rest : CStr)
    (h : match_literal l inp = .matching_failure rest) : ∃ j, rest = inp.drop j := by
  induction l generalizing inp with
  | nil => simp [match_literal] at h
  | cons f fs ih =>
    cases inp with
    | nil => simp [match_literal] at h
    | cons c cs =>
      by_cases hc : c = f
      · simp only [match_literal, hc, if_true] at h
        obtain ⟨j, hj⟩ := ih cs h
        exact ⟨j + 1, by rw [hj]; rfl⟩
      · simp only [match_literal, hc, if_false] at h
        cases h
        exact ⟨0, rfl⟩

/-- On a text in which `overlay=` stands nowhere, the scan loop leaves the buffer as it
found it. -/
theorem scan_loop_no_occurrence (fuel : Nat) (s buffer : CStr) (hf : s.length < fuel)
    (hnone : ∀ k, ¬ overlay_literal <+: s.drop k) :
    ∃ fp, scan_loop fuel ⟨s, false⟩ buffer = some (fp, buffer) := by
  induction fuel generalizing s with
  | zero => omega
  | succ f ih =>
    cases hm : match_literal overlay_literal s with
    | input_failure =>
      exact ⟨⟨[], true⟩, by simp [scan_loop, feof, fscanf_overlay, hm, EOF]⟩
    | matched r =>
      exfalso
      apply hnone 0
      rw [List.drop_zero, match_literal_matched _ _ _ hm]
      exact List.prefix_append _ _
    | matching_failure rest =>
      obtain ⟨j, hj⟩ := match_literal_failure_drop _ _ _ hm
      have hl := match_literal_failure_length _ _ _ hm
      obtain ⟨fp, hfp⟩ := ih (rest.drop 1) (by simp only [List.length_drop]; omega)
        (by
          intro k
          rw [hj, List.drop_drop, List.drop_drop]
          exact hnone _)
      refine ⟨fp, ?_⟩
      have hfs : fscanf_overlay ⟨s, false⟩ buffer = (0, ⟨rest, false⟩, buffer) := by
        unfold fscanf_overlay
        simp only [hm]
      simp only [scan_loop, feof, hfs, fseek_cur, ne_eq, not_true_eq_false, if_false,
        Bool.false_eq_true]
      exact hfp

theorem no_occurrence_of_bounded (text : CStr)
    (hnone : ∀ k, k < text.length → occurs_at text k = false) :
    ∀ k, ¬ overlay_literal <+: text.drop k := by
  intro k hp
  by_cases hk : k < text.length
  · have := hnone k hk
    unfold occurs_at at this
    rw [List.isPrefixOf_iff_prefix.mpr hp] at this
    exact Bool.noConfusion this
  · rw [List.drop_eq_nil_of_le (Nat.le_of_not_lt hk)] at hp
    have := List.eq_nil_of_prefix_nil hp
    exact absurd this (by decide)

/-- C12: the code at the command line `console=ttyS0 init_overlay=sda1 rw`.  No token
begins with `overlay=`, so the claim, like the comment of lines 62-64 ("If an overlay=
argument was found"), has the buffer stay empty and the resolution go straight to
`rootfs_data`.  The scan tries every position of the text and not only the beginnings of
tokens: it matches the `overlay=` inside `init_overlay=sda1`, stores `sda1`, and
`volume_find("sda1")` is called before the lookup of `rootfs_data`. -/
theorem C12_overlay_inside_token_is_taken :
    has_overlay_token "console=ttyS0 init_overlay=sda1 rw\n".toList = false ∧
    cmdline_scan "console=ttyS0 init_overlay=sda1 rw\n".toList = some "sda1".toList ∧
    parse_hint (some "console=ttyS0 init_overlay=sda1 rw\n".toList) = some "sda1".toList ∧
    start_resolve (sample_world "console=ttyS0 init_overlay=sda1 rw\n") =
      some (some 2, hinted_lookup "sda1".toList ++ [.volume_find "rootfs_data".toList]) := by
  decide

/-- For every command-line text in which the text `overlay=` occurs at no position, the
scan leaves the buffer empty, the hint parser returns "no hint", and the resolvers of
`start` and `done` make no hinted lookup: after reading the command line their only call
is `volume_find("rootfs_data")`, whose result they yield. -/
theorem no_occurrence_no_hint (w : World) (text : CStr)
    (hcmd : w.proc_cmdline = some text)
    (hnone : ∀ k, k < text.length → occurs_at text k = false) :
    cmdline_scan text = some [] ∧ parse_hint (some text) = none ∧
    start_resolve w = some (w.volume_find "rootfs_data".toList,
      [.fopen "/proc/cmdline".toList "r".toList, .fclose,
       .volume_find "rootfs_data".toList]) ∧
    done_resolve w = some (w.volume_find "rootfs_data".toList,
      [.fopen "/proc/cmdline".toList "r".toList, .fclose,
       .volume_find "rootfs_data".toList]) := by
  obtain ⟨fp, hfp⟩ := scan_loop_no_occurrence (text.length + 1) text [] (by omega)
    (no_occurrence_of_bounded text hnone)
  have hs : cmdline_scan text = some [] := by
    unfold cmdline_scan
    rw [hfp]
    rfl
  have hr : start_resolve w = some (w.volume_find "rootfs_data".toList,
      [.fopen "/proc/cmdline".toList "r".toList, .fclose,
       .volume_find "rootfs_data".toList]) := by
    unfold start_resolve start_hint
    simp only [hcmd, hs]
    rfl
  refine ⟨hs, ?_, hr, ?_⟩
  · unfold parse_hint
    simp only [hs]
  · rw [done_resolve_eq_start_resolve]
    exact hr

theorem no_occurrence_no_hint_marker_world :
    cmdline_scan "console=ttyS0 root=/dev/mtdblock2\n".toList = some [] ∧
    parse_hint (some "console=ttyS0 root=/dev/mtdblock2\n".toList) = none ∧
    start_resolve marker_world = some (marker_world.volume_find "rootfs_data".toList,
      [.fopen "/proc/cmdline".toList "r".toList, .fclose,
       .volume_find "rootfs_data".toList]) ∧
    done_resolve marker_world = some (marker_world.volume_find "rootfs_data".toList,
      [.fopen "/proc/cmdline".toList "r".toList, .fclose,
       .volume_find "rootfs_data".toList]) :=
  no_occurrence_no_hint marker_world "console=ttyS0 root=/dev/mtdblock2\n".toList rfl
    (by decide)

/-! ## C13 -/

/-- C13: for every world (every command-line content, the unreadable one included, and
every volume table) the hint block and resolver embedded in `start` and the ones embedded
in `done` return, with the same calls in the same order (so the same `volume_find`
calls with the same arguments) and the same volume or "absent".  In `start` these calls
follow the guard's; in `done` they come first; and what `done` does after them involves
no further lookup. -/
theorem C13_same_resolution_in_start_and_done (w : World) :
    done_hint w = start_hint w ∧
    ∃ d tr, start_resolve w = some (d, tr) ∧ done_resolve w = some (d, tr) ∧
      ((start_guard w).1 = false →
        ∃ code rest, start w = some (code, (start_guard w).2 ++ tr ++ rest)) ∧
      (∃ code rest, done w = some (code, tr ++ rest) ∧ rest.filter Event.isFind = []) := by
  refine ⟨rfl, ?_⟩
  obtain ⟨d, tr, hres, _⟩ := start_resolve_total w
  refine ⟨d, tr, hres, hres, ?_, ?_⟩
  · intro hg
    cases d with
    | none => exact ⟨_, _, start_of_absent w tr hg hres⟩
    | some v => exact ⟨_, _, start_of_resolved w v tr hg hres⟩
  · cases d with
    | none =>
      refine ⟨-1, [], ?_, rfl⟩
      unfold done
      rw [done_resolve_eq_start_resolve, hres, List.append_nil]
    | some v =>
      refine ⟨_, _, done_of_resolved w v tr hres, ?_⟩
      unfold done_switch
      cases w.volume_identify v <;> rfl

/-! ## C14 -/

/-- C14: when the first argument exists and is none of `ram`, `stop`, `done`, `main`
returns -1 and makes no call at all (no lookup, classification, mount, conversion or
readiness update); with no argument `main` is `start`: same status, same calls. -/
theorem C14_main_dispatch (w : World) :
    (∀ prog arg rest, arg ≠ "ram".toList → arg ≠ "stop".toList → arg ≠ "done".toList →
      main w (prog :: arg :: rest) = some (-1, [])) ∧
    (∀ prog, main w [prog] = start w) ∧ main w [] = start w := by
  refine ⟨?_, fun _ => rfl, rfl⟩
  intro prog arg rest h1 h2 h3
  unfold main
  simp only [h1, h2, h3, if_false]

theorem C14_main_dispatch_witness :
    main (sample_world "overlay=mmcblk0p3\n") ["mount_root".toList, "foo".toList]
      = some (-1, []) :=
  (C14_main_dispatch (sample_world "overlay=mmcblk0p3\n")).1 "mount_root".toList
    "foo".toList [] (by decide) (by decide) (by decide)

/-! ## C15 -/

/-- C15: `stop` returns -1 when `SHUTDOWN` is absent and 0 when it is present; in both
cases its only call is the `getenv("SHUTDOWN")` of its guard, so it makes no volume
lookup, no classification, no mount, no conversion and no readiness update. -/
theorem C15_stop (w : World) :
    (w.getenv "SHUTDOWN".toList = none →
      stop w = some (-1, [.getenv "SHUTDOWN".toList])) ∧
    (w.getenv "SHUTDOWN".toList ≠ none →
      stop w = some (0, [.getenv "SHUTDOWN".toList])) ∧
    (∀ code t, stop w = some (code, t) →
      t.filter (fun e => !e.isGuardCheck) = [] ∧ t.filter Event.isFind = [] ∧
      t.filter Event.isIdentify = [] ∧ t.filter Event.isAction = []) := by
  unfold stop
  cases w.getenv "SHUTDOWN".toList with
  | none =>
    refine ⟨fun _ => rfl, fun h => absurd rfl h, ?_⟩
    intro code t h
    simp only [Option.some.injEq, Prod.mk.injEq] at h
    rw [← h.2]
    exact ⟨rfl, rfl, rfl, rfl⟩
  | some x =>
    refine ⟨fun h => Option.noConfusion h, fun _ => rfl, ?_⟩
    intro code t h
    simp only [Option.some.injEq, Prod.mk.injEq] at h
    rw [← h.2]
    exact ⟨rfl, rfl, rfl, rfl⟩

theorem C15_stop_witness :
    stop marker_world = some (-1, [.getenv "SHUTDOWN".toList]) ∧
    stop shutdown_world = some (0, [.getenv "SHUTDOWN".toList]) :=
  ⟨(C15_stop marker_world).1 rfl, (C15_stop shutdown_world).2.1 (by decide)⟩

/-! ## C16 -/

/-- C16: for every world (environment, command line, volume table) and every argument
vector whose first argument is `ram`, `main` makes exactly one call, `ramoverlay()`, and
returns its status unchanged: no guard check, no read of the command line, no
`volume_find`, no `volume_identify`. -/
theorem C16_ram_bypasses_everything (w : World) (prog : CStr) (rest : List CStr) :
    ∃ t, main w (prog :: "ram".toList :: rest) = some (w.ramoverlay, t) ∧
      t = [.ramoverlay] ∧
      t.filter Event.isGuardCheck = [] ∧ t.filter Event.isCmdlineRead = [] ∧
      t.filter Event.isFind = [] ∧ t.filter Event.isIdentify = [] :=
  ⟨[.ramoverlay], rfl, rfl, rfl, rfl, rfl, rfl⟩

/-! ## C17 -/

theorem hint_lookups_start_hint (w : World) :
    hint_lookups (start_hint w) =
      some (match parse_hint w.proc_cmdline with
        | none => []
        | some n => [.volume_find n]) := by
  cases hh : parse_hint w.proc_cmdline with
  | none =>
    obtain ⟨tr, ht, hf, _⟩ := start_hint_of_no_hint w hh
    rw [ht]
    simp only [hint_lookups, Option.map_some', hf]
  | some n =>
    rw [start_hint_of_hint w n hh]
    rfl

/-- C17: the hint is a function of the command-line text alone.  In two worlds with the
same `/proc/cmdline` content (and any environments, volume tables and external statuses)
the hint blocks of `start` and of `done` make the same hinted lookup, or none in both:
it is the lookup of the name `parse_hint` computes from the text. -/
theorem C17_hint_depends_on_text_only (w1 w2 : World)
    (h : w1.proc_cmdline = w2.proc_cmdline) :
    hint_lookups (start_hint w1) = hint_lookups (start_hint w2) ∧
    hint_lookups (done_hint w1) = hint_lookups (done_hint w2) ∧
    hint_lookups (start_hint w1) = hint_lookups (done_hint w2) ∧
    hint_lookups (start_hint w1) =
      some (match parse_hint w1.proc_cmdline with
        | none => []
        | some n => [.volume_find n]) := by
  rw [done_hint_eq_start_hint, done_hint_eq_start_hint, hint_lookups_start_hint w1,
    hint_lookups_start_hint w2, h]
  exact ⟨rfl, rfl, rfl, rfl⟩

theorem C17_hint_depends_on_text_only_witness :
    hint_lookups (start_hint (sample_world "console=ttyS0 overlay=mmcblk0p3 rw\n"))
      = hint_lookups (start_hint shutdown_world) ∧
    hint_lookups (done_hint (sample_world "console=ttyS0 overlay=mmcblk0p3 rw\n"))
      = hint_lookups (done_hint shutdown_world) ∧
    hint_lookups (start_hint (sample_world "console=ttyS0 overlay=mmcblk0p3 rw\n"))
      = hint_lookups (done_hint shutdown_world) ∧
    hint_lookups (start_hint (sample_world "console=ttyS0 overlay=mmcblk0p3 rw\n")) =
      some (match parse_hint
          (sample_world "console=ttyS0 overlay=mmcblk0p3 rw\n").proc_cmdline with
        | none => []
        | some n => [.volume_find n]) :=
  C17_hint_depends_on_text_only (sample_world "console=ttyS0 overlay=mmcblk0p3 rw\n")
    shutdown_world rfl

/-! ## C18 -/

theorem scan_loop_fuel_succ (fuel : Nat) (fp : FILE) (buffer : CStr) (r : FILE × CStr)
    (h : scan_loop fuel fp buffer = some r) : scan_loop (fuel + 1) fp buffer = some r := by
  induction fuel generalizing fp buffer with
  | zero => simp [scan_loop] at h
  | succ n ih =>
    unfold scan_loop at h ⊢
    by_cases he : feof fp = true
    · simpa [he] using h
    · simp only [he, if_false] at h ⊢
      by_cases hr : (fscanf_overlay fp buffer).1 = 0
      · simp only [hr, ne_eq, not_true_eq_false, if_false] at h ⊢
        exact ih _ _ h
      · simpa [hr] using h

theorem scan_loop_fuel_le (fuel fuel' : Nat) (fp : FILE) (buffer : CStr) (r : FILE × CStr)
    (hle : fuel ≤ fuel') (h : scan_loop fuel fp buffer = some r) :
    scan_loop fuel' fp buffer = some r := by
  induction hle with
  | refl => exact h
  | step _ ih => exact scan_loop_fuel_succ _ _ _ _ ih

/-- C18: the scan loop terminates on every command-line text.  With `text.length + 1`
evaluations of the loop condition the loop has left, and more evaluations change nothing;
and each iteration either ends the loop (`fscanf` returned non-zero) or leaves strictly
fewer characters unread than it found. -/
theorem C18_scan_terminates (text : CStr) :
    (∃ r, scan_loop (text.length + 1) ⟨text, false⟩ [] = some r ∧
      ∀ fuel, text.length + 1 ≤ fuel → scan_loop fuel ⟨text, false⟩ [] = some r) ∧
    (∀ (fp : FILE) (buffer : CStr),
      (fscanf_overlay fp buffer).1 ≠ 0 ∨
      (fseek_cur (fscanf_overlay fp buffer).2.1 1).unread.length < fp.unread.length) := by
  constructor
  · obtain ⟨r, hr⟩ := Option.isSome_iff_exists.mp
      (scan_loop_isSome (text.length + 1) ⟨text, false⟩ [] (Nat.lt_succ_self _))
    exact ⟨r, hr, fun fuel hle => scan_loop_fuel_le _ _ _ _ r hle hr⟩
  · intro fp buffer
    by_cases hz : (fscanf_overlay fp buffer).1 = 0
    · right
      obtain ⟨rest, hm, hf⟩ := fscanf_overlay_zero fp buffer hz
      have hl := match_literal_failure_length _ _ _ hm
      rw [hf]
      simp only [fseek_cur, List.length_drop]
      omega
    · exact Or.inl hz

/-! ## C19 -/

/-- On a text in which every `overlay=` is followed by white space only, up to the end,
the scan loop leaves the buffer as it found it. -/
theorem scan_loop_blank_values (fuel : Nat) (s buffer : CStr) (hf : s.length < fuel)
    (hblank : ∀ k, overlay_literal <+: s.drop k →
      ∀ c ∈ s.drop (k + overlay_literal.length), isspace c = true) :
    ∃ fp, scan_loop fuel ⟨s, false⟩ buffer = some (fp, buffer) := by
  induction fuel generalizing s with
  | zero => omega
  | succ f ih =>
    cases hm : match_literal overlay_literal s with
    | input_failure =>
      exact ⟨⟨[], true⟩, by simp [scan_loop, feof, fscanf_overlay, hm, EOF]⟩
    | matched r =>
      have hs := match_literal_matched _ _ _ hm
      have hr : ∀ c ∈ r, isspace c = true := by
        have := hblank 0 (by rw [List.drop_zero, hs]; exact List.prefix_append _ _)
        rw [Nat.zero_add, hs, List.drop_left] at this
        exact this
      have hd : List.dropWhile isspace r = [] := List.dropWhile_eq_nil_iff.mpr hr
      exact ⟨⟨[], true⟩, by simp [scan_loop, feof, fscanf_overlay, hm, hd, EOF]⟩
    | matching_failure rest =>
      obtain ⟨j, hj⟩ := match_literal_failure_drop _ _ _ hm
      have hl := match_literal_failure_length _ _ _ hm
      obtain ⟨fp, hfp⟩ := ih (rest.drop 1) (by simp only [List.length_drop]; omega)
        (by
          intro k hk
          rw [hj, List.drop_drop] at hk ⊢
          rw [List.drop_drop] at hk ⊢
          rw [show j + (1 + (k + overlay_literal.length))
            = (j + (1 + k)) + overlay_literal.length by omega]
          exact hblank _ hk)
      refine ⟨fp, ?_⟩
      have hfs : fscanf_overlay ⟨s, false⟩ buffer = (0, ⟨rest, false⟩, buffer) := by
        unfold fscanf_overlay
        simp only [hm]
      simp only [scan_loop, feof, hfs, fseek_cur, ne_eq, not_true_eq_false, if_false,
        Bool.false_eq_true]
      exact hfp

/-- The scan loop, started in a stretch `pre` that ends in white space and in which no
`overlay=` begins, arrives at the first character after `pre` with the buffer unchanged. -/
theorem scan_loop_reaches (s : CStr) :
    ∀ (n : Nat) (pre : CStr) (fuel : Nat) (buffer : CStr),
      pre.length ≤ n → pre.length < fuel →
      (∀ c, pre.getLast? = some c → isspace c = true) →
      (∀ k, k < pre.length → ¬ overlay_literal <+: (pre ++ s).drop k) →
      ∃ f, scan_loop fuel ⟨pre ++ s, false⟩ buffer = scan_loop (f + 1) ⟨s, false⟩ buffer := by
  intro n
  induction n with
  | zero =>
    intro pre fuel buffer hn hf _ _
    have hp : pre = [] := List.length_eq_zero.mp (Nat.le_zero.mp hn)
    subst hp
    cases fuel with
    | zero => exact absurd hf (by simp)
    | succ f => exact ⟨f, rfl⟩
  | succ n ih =>
    intro pre fuel buffer hn hf hlast hocc
    cases fuel with
    | zero => exact absurd hf (by simp)
    | succ f =>
      by_cases hp : pre = []
      · subst hp
        exact ⟨f, rfl⟩
      · rcases match_literal_in_pre overlay_literal overlay_literal_no_space pre s hp hlast
          with ⟨r, hr⟩ | ⟨q, x, pre', hq, hm⟩
        · exfalso
          apply hocc 0 (List.length_pos.mpr hp)
          rw [List.drop_zero, match_literal_matched _ _ _ hr]
          exact List.prefix_append _ _
        · have hlen : pre.length = q.length + (pre'.length + 1) := by
            rw [hq]
            simp
          have hlast' : ∀ c, pre'.getLast? = some c → isspace c = true := by
            intro c hc
            apply hlast c
            rw [hq]
            cases pre' with
            | nil => simp at hc
            | cons y ys =>
              rw [show q ++ x :: y :: ys = (q ++ [x]) ++ (y :: ys) by simp,
                List.getLast?_append_of_ne_nil _ (by simp)]
              exact hc
          have hocc' : ∀ k, k < pre'.length → ¬ overlay_literal <+: (pre' ++ s).drop k := by
            intro k hk
            have := hocc (q.length + 1 + k) (by omega)
            rw [hq] at this
            rw [show (q ++ x :: pre') ++ s = (q ++ [x]) ++ (pre' ++ s) by simp,
              show q.length + 1 + k = (q ++ [x]).length + k by simp,
              List.drop_append] at this
            exact this
          obtain ⟨f', hf'⟩ := ih pre' f buffer (by omega) (by omega) hlast' hocc'
          refine ⟨f', ?_⟩
          have hfs : fscanf_overlay ⟨pre ++ s, false⟩ buffer
              = (0, ⟨x :: (pre' ++ s), false⟩, buffer) := by
            unfold fscanf_overlay
            simp only [hm]
          simp only [scan_loop, feof, hfs, fseek_cur, List.drop_succ_cons, List.drop_zero,
            ne_eq, not_true_eq_false, if_false, Bool.false_eq_true]
          exact hf'

/-- After `overlay=`, `%s` skips white space and stores the word that follows it. -/
theorem fscanf_overlay_skips_space (ws v post buffer : CStr) (e : Bool)
    (hws : ∀ c ∈ ws, isspace c = true) (hv : v ≠ [])
    (hvw : ∀ c ∈ v, isspace c = false)
    (hpost : ∀ c, post.head? = some c → isspace c = true) :
    ∃ fp, fscanf_overlay ⟨overlay_literal ++ (ws ++ (v ++ post)), e⟩ buffer = (1, fp, v) := by
  unfold fscanf_overlay
  simp only [match_literal_append]
  rw [List.dropWhile_append_of_pos (by intro a ha; exact hws a ha)]
  cases v with
  | nil => exact absurd rfl hv
  | cons c cs =>
    have hc : isspace c = false := hvw c (List.mem_cons_self _ _)
    have hd : List.dropWhile isspace (c :: cs ++ post) = c :: (cs ++ post) := by
      simp [List.dropWhile_cons, hc]
    rw [hd]
    have ht := takeWhile_word (c :: cs) post hvw hpost
    simp only [List.cons_append] at ht
    refine ⟨⟨List.dropWhile (fun x => !isspace x) (c :: (cs ++ post)),
      (List.dropWhile (fun x => !isspace x) (c :: (cs ++ post))).isEmpty⟩, ?_⟩
    simp only [ht]

/-- C19: the code at the command line `overlay= root=/dev/sda1`, the claim's own example.
The only `overlay=` is followed by a blank, so the claim has the parser return "no hint".
The `%s` of `"overlay=%s"` skips the blank and stores the next argument,
`root=/dev/sda1`, which is not the name given with `overlay=` (comment of lines 62-64:
"look for a volume with that name"); five characters are then dropped because the word
contains `/dev/`, and `volume_find("/dev/sda1")` is called before the lookup of
`rootfs_data`. -/
theorem C19_empty_value_takes_next_word :
    every_value_empty "overlay= root=/dev/sda1".toList = true ∧
    cmdline_scan "overlay= root=/dev/sda1".toList = some "root=/dev/sda1".toList ∧
    parse_hint (some "overlay= root=/dev/sda1".toList) = some "/dev/sda1".toList ∧
    start_resolve (sample_world "overlay= root=/dev/sda1") =
      some (some 2, hinted_lookup "/dev/sda1".toList ++ [.volume_find "rootfs_data".toList]) := by
  decide

/-- What follows `overlay=` decides the outcome.  For every command-line text in which
every occurrence of `overlay=` is followed by nothing but white space up to the end of the
text, the scan leaves the buffer empty and the parser returns "no hint".  When the first
`overlay=`, at the beginning of a token, is followed by white space and then a word, the
scan stores that word. -/
theorem value_after_overlay :
    (∀ text : CStr,
      (∀ k, k < text.length → occurs_at text k = true →
        ∀ c ∈ text.drop (k + overlay_literal.length), isspace c = true) →
      cmdline_scan text = some [] ∧ parse_hint (some text) = none) ∧
    (∀ pre ws v post : CStr,
      (∀ c ∈ ws, isspace c = true) → v ≠ [] → (∀ c ∈ v, isspace c = false) →
      (∀ c, pre.getLast? = some c → isspace c = true) →
      (∀ c, post.head? = some c → isspace c = true) →
      (∀ k, k < pre.length → occurs_at (pre ++ overlay_literal) k = false) →
      cmdline_scan (pre ++ overlay_literal ++ ws ++ v ++ post) = some v) := by
  constructor
  · intro text hblank
    have hb : ∀ k, overlay_literal <+: text.drop k →
        ∀ c ∈ text.drop (k + overlay_literal.length), isspace c = true := by
      intro k hp
      by_cases hk : k < text.length
      · exact hblank k hk (List.isPrefixOf_iff_prefix.mpr hp)
      · rw [List.drop_eq_nil_of_le (Nat.le_of_not_lt hk)] at hp
        exact absurd (List.eq_nil_of_prefix_nil hp) (by decide)
    obtain ⟨fp, hfp⟩ := scan_loop_blank_values (text.length + 1) text [] (by omega) hb
    have hs : cmdline_scan text = some [] := by
      unfold cmdline_scan
      rw [hfp]
      rfl
    refine ⟨hs, ?_⟩
    unfold parse_hint
    simp only [hs]
  · intro pre ws v post hws hv hvw hpre hpost hfirst
    have hassoc : pre ++ overlay_literal ++ ws ++ v ++ post
        = pre ++ (overlay_literal ++ (ws ++ (v ++ post))) := by
      simp only [List.append_assoc]
    rw [hassoc]
    have hocc : ∀ k, k < pre.length →
        ¬ overlay_literal <+: (pre ++ (overlay_literal ++ (ws ++ (v ++ post)))).drop k := by
      intro k hk hp
      have h0 := hfirst k hk
      have hp' := (occurrence_before_token pre (ws ++ (v ++ post)) [] k hk).mp hp
      rw [List.append_nil] at hp'
      unfold occurs_at at h0
      rw [List.isPrefixOf_iff_prefix.mpr hp'] at h0
      exact Bool.noConfusion h0
    obtain ⟨f, hf⟩ := scan_loop_reaches (overlay_literal ++ (ws ++ (v ++ post))) pre.length pre
      ((pre ++ (overlay_literal ++ (ws ++ (v ++ post)))).length + 1) [] (Nat.le_refl _)
      (by simp; omega) hpre hocc
    obtain ⟨fp, hfp⟩ := fscanf_overlay_skips_space ws v post [] false hws hv hvw hpost
    unfold cmdline_scan
    rw [hf]
    simp [scan_loop, feof, hfp]

theorem value_after_overlay_examples :
    (cmdline_scan "console=ttyS0 overlay= \n".toList = some [] ∧
      parse_hint (some "console=ttyS0 overlay= \n".toList) = none) ∧
    cmdline_scan ("console=ttyS0 ".toList ++ overlay_literal ++ " ".toList
      ++ "root=/dev/sda1".toList ++ " rw\n".toList) = some "root=/dev/sda1".toList :=
  ⟨value_after_overlay.1 "console=ttyS0 overlay= \n".toList (by decide),
   value_after_overlay.2 "console=ttyS0 ".toList " ".toList "root=/dev/sda1".toList
    " rw\n".toList (by decide) (by decide) (by decide) (by decide) (by decide) (by decide)⟩

/-! ## C20 -/

theorem dropWhile_head_false (p : Char → Bool) (l : CStr) (c : Char) (cs : CStr)
    (h : l.dropWhile p = c :: cs) : p c = false := by
  have := List.head?_dropWhile_not p l
  rw [h] at this
  simpa using this

/-- What `fscanf` leaves in the buffer: the old content, or a non-empty word free of
white space. -/
theorem fscanf_overlay_buffer (fp : FILE) (buffer : CStr) :
    (fscanf_overlay fp buffer).2.2 = buffer ∨
    ((fscanf_overlay fp buffer).2.2 ≠ [] ∧
      ∀ c ∈ (fscanf_overlay fp buffer).2.2, isspace c = false) := by
  unfold fscanf_overlay
  cases match_literal overlay_literal fp.unread with
  | input_failure => exact Or.inl rfl
  | matching_failure rest => exact Or.inl rfl
  | matched rest =>
    cases hd : rest.dropWhile isspace with
    | nil =>
      left
      simp only [hd]
    | cons c cs =>
      right
      have hc : isspace c = false := dropWhile_head_false _ _ _ _ hd
      simp only [hd]
      constructor
      · simp [List.takeWhile_cons, hc]
      · intro x hx
        have := List.mem_takeWhile_imp hx
        simpa using this

theorem scan_loop_buffer (fuel : Nat) (fp : FILE) (buffer : CStr) (r : FILE × CStr)
    (h : scan_loop fuel fp buffer = some r) :
    r.2 = buffer ∨ (r.2 ≠ [] ∧ ∀ c ∈ r.2, isspace c = false) := by
  induction fuel generalizing fp with
  | zero => simp [scan_loop] at h
  | succ n ih =>
    unfold scan_loop at h
    by_cases he : feof fp = true
    · simp only [he, if_true, Option.some.injEq] at h
      rw [← h]
      exact Or.inl rfl
    · simp only [he, if_false] at h
      by_cases hz : (fscanf_overlay fp buffer).1 = 0
      · obtain ⟨rest, _, hf⟩ := fscanf_overlay_zero fp buffer hz
        rw [hf] at h
        simp only [ne_eq, not_true_eq_false, if_false] at h
        exact ih _ h
      · simp only [ne_eq, hz, not_false_eq_true, if_true, Option.some.injEq,
          Bool.false_eq_true, if_false] at h
        rw [← h]
        exact fscanf_overlay_buffer fp buffer

/-- C20: when the first `overlay=` of the command line begins a white-space-delimited
token `overlay=<v>` with `v` non-empty (whatever follows it, further `overlay=` tokens
included), the scan stores `v`: the leftmost token wins.  And whenever the scan of any
text leaves a non-empty buffer, that value contains no white-space character, nor does
the name then passed to `volume_find`. -/
theorem C20_first_token_wins (pre v post : CStr)
    (hv : v ≠ [])
    (hvw : ∀ c ∈ v, isspace c = false)
    (hpre : ∀ c, pre.getLast? = some c → isspace c = true)
    (hpost : ∀ c, post.head? = some c → isspace c = true)
    (hfirst : ∀ k, k < pre.length →
      occurs_at (pre ++ overlay_literal ++ v ++ post) k = false) :
    cmdline_scan (pre ++ overlay_literal ++ v ++ post) = some v ∧
    (∀ text b, cmdline_scan text = some b → b ≠ [] →
      (∀ c ∈ b, isspace c = false) ∧ ∀ c ∈ overlay_name b, isspace c = false) := by
  constructor
  · have hassoc : pre ++ overlay_literal ++ v ++ post
        = pre ++ (overlay_literal ++ (v ++ post)) := by simp only [List.append_assoc]
    rw [hassoc] at hfirst ⊢
    apply cmdline_scan_token pre v post hv hvw hpre hpost
    intro k hk hp
    have := hfirst k hk
    unfold occurs_at at this
    rw [List.isPrefixOf_iff_prefix.mpr hp] at this
    exact Bool.noConfusion this
  · intro text b hs hb
    unfold cmdline_scan at hs
    cases hl : scan_loop (text.length + 1) ⟨text, false⟩ [] with
    | none => simp [hl] at hs
    | some r =>
      rw [hl] at hs
      simp only [Option.map_some', Option.some.injEq] at hs
      have hw : ∀ c ∈ b, isspace c = false := by
        rcases scan_loop_buffer _ _ _ r hl with h | ⟨_, h⟩
        · rw [hs] at h
          exact absurd h hb
        · rw [hs] at h
          exact h
      refine ⟨hw, ?_⟩
      intro c hc
      unfold overlay_name at hc
      exact hw c (List.mem_of_mem_drop hc)

theorem C20_first_token_wins_witness :
    cmdline_scan ("quiet ".toList ++ overlay_literal ++ "mmcblk0p3".toList
      ++ " overlay=sda2 overlay=/dev/sda3 rw\n".toList) = some "mmcblk0p3".toList ∧
    (∀ text b, cmdline_scan text = some b → b ≠ [] →
      (∀ c ∈ b, isspace c = false) ∧ ∀ c ∈ overlay_name b, isspace c = false) :=
  C20_first_token_wins "quiet ".toList "mmcblk0p3".toList
    " overlay=sda2 overlay=/dev/sda3 rw\n".toList
    (by decide) (by decide) (by decide) (by decide) (by decide)

end MountRoot
